import Mathlib

/-!
Verification of the kuake_cli resumable-upload SDK (Go) against its
natural-language specification.  Go strings are modelled as lists of
characters, Go ints as Lean Int / Nat, and each Go function that a claim
depends on is translated into an executable Lean definition.  Remote HTTP
calls are modelled by explicit oracle environments.

The file is organised as: all definitions first, then the theorems.
-/

set_option maxHeartbeats 1000000

namespace Kuake

/-- Go strings are modelled as lists of characters. -/
abbrev GoStr := List Char

/-- Turn a Lean string literal into the Go-string model. -/
def gs (s : String) : GoStr := s.data

/-! ## Definitions: path normalisation (file.go normalizePath / normalizeRootDir) -/

/-- strings.ReplaceAll(path, backslash, slash): every backslash becomes a slash. -/
def replaceBackslash (s : GoStr) : GoStr :=
  s.map (fun c => if c = '\\' then '/' else c)

/-- One left-to-right pass of strings.ReplaceAll(path, two slashes, one slash):
non-overlapping replacement of each adjacent slash pair by a single slash. -/
def replaceDoubleSlash : GoStr → GoStr
  | [] => []
  | [c] => [c]
  | c1 :: c2 :: rest =>
    if c1 = '/' ∧ c2 = '/' then '/' :: replaceDoubleSlash rest
    else c1 :: replaceDoubleSlash (c2 :: rest)

/-- strings.Contains(path, two slashes): is there an adjacent pair of slashes? -/
def containsDoubleSlash : GoStr → Bool
  | [] => false
  | [_] => false
  | c1 :: c2 :: rest => (decide (c1 = '/' ∧ c2 = '/')) || containsDoubleSlash (c2 :: rest)

/-- The collapse loop of normalizePath, with explicit fuel (the loop body
strictly shrinks the string, so fuel equal to the length always suffices). -/
def collapseSlashesFuel : Nat → GoStr → GoStr
  | 0, s => s
  | fuel + 1, s =>
    if containsDoubleSlash s then collapseSlashesFuel fuel (replaceDoubleSlash s) else s

/-- The loop in normalizePath: replace double slashes until none remain. -/
def collapseSlashes (s : GoStr) : GoStr := collapseSlashesFuel s.length s

/-- strings.HasSuffix(path, slash). -/
def hasSuffixSlash (s : GoStr) : Bool :=
  decide (s.getLast? = some '/')

/-- normalizePath from file.go: backslashes to slashes, collapse repeated
slashes, strip one trailing slash when the length exceeds one. -/
def normalizePath (s : GoStr) : GoStr :=
  let s1 := replaceBackslash s
  let s2 := collapseSlashes s1
  if 1 < s2.length ∧ hasSuffixSlash s2 = true then s2.dropLast else s2

/-- normalizeRootDir from file.go: normalize, then map the three root
spellings to the reserved identifier "0". -/
def normalizeRootDir (s : GoStr) : GoStr :=
  let p := normalizePath s
  if p = [] ∨ p = gs "/" ∨ p = gs "." then gs "0" else p

/-! ## Definitions: SHA-1 streaming accumulator and the Hash Context Codec

The codec functions (updateHashCtxFromHash, encodeHashCtx) are exercised by
the repository's hash_ctx tests but their implementation file is not present
under src/, so the accumulator and the capture/restore pair are modelled from
the specification (five 32-bit chaining words, a 64-bit processed-byte counter
split into low/high halves, and the unconsumed partial block with its length).
-/

/-- Bytes are naturals below 256. -/
abbrev GoByte := Nat

/-- Truncate to a 32-bit word. -/
def w32 (x : Nat) : Nat := x % 4294967296

/-- Rotate a 32-bit word left by n bits. -/
def rotl32 (x n : Nat) : Nat :=
  w32 (x * 2 ^ n) ||| (x % 4294967296) / 2 ^ (32 - n)

/-- Big-endian grouping of bytes into 32-bit words. -/
def toWordsBE : List GoByte → List Nat
  | b0 :: b1 :: b2 :: b3 :: rest =>
    (((b0 * 256 + b1) * 256 + b2) * 256 + b3) :: toWordsBE rest
  | _ => []

/-- SHA-1 round constant. -/
def sha1K (t : Nat) : Nat :=
  if t < 20 then 0x5A827999
  else if t < 40 then 0x6ED9EBA1
  else if t < 60 then 0x8F1BBCDC
  else 0xCA62C1D6

/-- SHA-1 round function (the complement is taken inside 32 bits). -/
def sha1F (t b c d : Nat) : Nat :=
  if t < 20 then (b &&& c) ||| ((Nat.xor b 4294967295) &&& d)
  else if t < 40 then Nat.xor (Nat.xor b c) d
  else if t < 60 then (b &&& c) ||| (b &&& d) ||| (c &&& d)
  else Nat.xor (Nat.xor b c) d

/-- Expand the 16 block words to the 80-entry message schedule. -/
def sha1Schedule (w0 : Array Nat) : Array Nat :=
  (List.range 64).foldl
    (fun w i =>
      let t := i + 16
      w.push (rotl32 (Nat.xor (Nat.xor (w[t - 3]!) (w[t - 8]!))
        (Nat.xor (w[t - 14]!) (w[t - 16]!))) 1))
    w0

/-- The 80 SHA-1 rounds over one block schedule. -/
def sha1Rounds (h : Nat × Nat × Nat × Nat × Nat) (w : Array Nat) :
    Nat × Nat × Nat × Nat × Nat :=
  (List.range 80).foldl
    (fun st t =>
      match st with
      | (a, b, c, d, e) =>
        (w32 (rotl32 a 5 + sha1F t b c d + e + sha1K t + w[t]!), a, rotl32 b 30, c, d))
    h

/-- SHA-1 compression of one 64-byte block into the chaining state. -/
def sha1Compress (h0 h1 h2 h3 h4 : Nat) (block : List GoByte) :
    Nat × Nat × Nat × Nat × Nat :=
  let w := sha1Schedule (Array.mk (toWordsBE block))
  match sha1Rounds (h0, h1, h2, h3, h4) w with
  | (a, b, c, d, e) => (w32 (h0 + a), w32 (h1 + b), w32 (h2 + c), w32 (h3 + d), w32 (h4 + e))

/-- The streaming SHA-1 accumulator: chaining words, processed-byte counter,
and the unconsumed partial block (always shorter than 64 bytes). -/
structure Sha1Acc where
  h0 : Nat
  h1 : Nat
  h2 : Nat
  h3 : Nat
  h4 : Nat
  len : Nat
  buf : List GoByte
deriving Repr, DecidableEq

/-- Feed one byte into the accumulator, compressing when a block fills up. -/
def sha1Step (acc : Sha1Acc) (b : GoByte) : Sha1Acc :=
  let buf := acc.buf ++ [b]
  if buf.length = 64 then
    let c := sha1Compress acc.h0 acc.h1 acc.h2 acc.h3 acc.h4 buf
    { h0 := c.1, h1 := c.2.1, h2 := c.2.2.1, h3 := c.2.2.2.1, h4 := c.2.2.2.2,
      len := acc.len + 1, buf := [] }
  else
    { acc with len := acc.len + 1, buf := buf }

/-- The initial SHA-1 accumulator. -/
def sha1Init : Sha1Acc :=
  { h0 := 0x67452301, h1 := 0xEFCDAB89, h2 := 0x98BADCFE, h3 := 0x10325476,
    h4 := 0xC3D2E1F0, len := 0, buf := [] }

/-- Feed a byte string into the accumulator. -/
def sha1Update (acc : Sha1Acc) (data : List GoByte) : Sha1Acc :=
  data.foldl sha1Step acc

/-- Big-endian 8-byte encoding of a 64-bit value. -/
def be64 (x : Nat) : List GoByte :=
  [x / 2 ^ 56 % 256, x / 2 ^ 48 % 256, x / 2 ^ 40 % 256, x / 2 ^ 32 % 256,
   x / 2 ^ 24 % 256, x / 2 ^ 16 % 256, x / 2 ^ 8 % 256, x % 256]

/-- SHA-1 padding for a message of the given byte length: the 0x80 marker,
zeros up to 56 mod 64, then the bit length (mod 2 to the 64) big-endian. -/
def sha1PadTail (len : Nat) : List GoByte :=
  128 :: List.replicate ((119 - len % 64) % 64) 0 ++ be64 (len * 8 % 2 ^ 64)

/-- Finalise: absorb the padding and read off the five chaining words. -/
def sha1FinishWords (acc : Sha1Acc) : Nat × Nat × Nat × Nat × Nat :=
  let f := sha1Update acc (sha1PadTail acc.len)
  (f.h0, f.h1, f.h2, f.h3, f.h4)

/-- Big-endian 4-byte encoding of a 32-bit word. -/
def be32 (x : Nat) : List GoByte :=
  [x / 2 ^ 24 % 256, x / 2 ^ 16 % 256, x / 2 ^ 8 % 256, x % 256]

/-- The 20-byte SHA-1 digest of an accumulator. -/
def sha1Digest (acc : Sha1Acc) : List GoByte :=
  match sha1FinishWords acc with
  | (a, b, c, d, e) => be32 a ++ be32 b ++ be32 c ++ be32 d ++ be32 e

/-- Modelled from the spec: the HashState snapshot captured at a chunk
boundary (spec 3/4.3) — five chaining words, the low/high halves of the
64-bit processed-byte counter, and the unconsumed partial block with its
length.  The implementation (updateHashCtxFromHash / encodeHashCtx) is
absent from src/; only its tests are present. -/
structure SpecHashState where
  h0 : Nat
  h1 : Nat
  h2 : Nat
  h3 : Nat
  h4 : Nat
  nl : Nat
  nh : Nat
  data : List GoByte
  num : Nat
deriving Repr, DecidableEq

/-- Modelled from the spec: capture(accumulator) (spec 4.3). -/
def captureHashState (acc : Sha1Acc) : SpecHashState :=
  { h0 := acc.h0, h1 := acc.h1, h2 := acc.h2, h3 := acc.h3, h4 := acc.h4,
    nl := acc.len % 2 ^ 32, nh := acc.len / 2 ^ 32 % 2 ^ 32,
    data := acc.buf, num := acc.buf.length }

/-- Modelled from the spec: restore(HashState) (spec 4.3). -/
def restoreHashState (st : SpecHashState) : Sha1Acc :=
  { h0 := st.h0, h1 := st.h1, h2 := st.h2, h3 := st.h3, h4 := st.h4,
    len := st.nl + 2 ^ 32 * st.nh, buf := st.data }

/-! ## Definitions: OSS part-upload header builder (types.go, BuildHeaders) -/

/-- HashCtx from types.go: the string-valued serialised SHA1 context that the
part-upload header builder can carry. -/
structure HashCtx where
  hashType : GoStr
  h0 : GoStr
  h1 : GoStr
  h2 : GoStr
  h3 : GoStr
  h4 : GoStr
  nl : GoStr
  nh : GoStr
  data : GoStr
  num : GoStr
deriving Repr, DecidableEq

/-- OSSPartUploadHeaderBuilder from types.go; its HashCtx field is documented
in the source as required for part numbers of at least two. -/
structure OSSPartUploadHeaderBuilder where
  authKey : GoStr
  mimeType : GoStr
  timestamp : GoStr
  hashCtx : Option HashCtx
deriving Repr, DecidableEq

/-- BuildHeaders of OSSPartUploadHeaderBuilder (file.go lines 1579-1585 and
part_003 lines 2025-2031): the complete list of headers placed on a part PUT
request, in source order. -/
def buildPartUploadHeaders (b : OSSPartUploadHeaderBuilder) : List (GoStr × GoStr) :=
  [(gs "Authorization", b.authKey),
   (gs "Content-Type", b.mimeType),
   (gs "x-oss-date", b.timestamp),
   (gs "x-oss-user-agent",
     gs "aliyun-sdk-js/6.6.1 Chrome 98.0.4758.80 on Windows 10 64-bit")]

/-- The header builder exactly as upPart constructs it for a part PUT
(part_003 lines 208-212): AuthKey, MimeType and Timestamp only, leaving the
HashCtx field nil.  The part number from upPart's signature is recorded as a
parameter to state header claims per chunk; the source never feeds it (or any
hash context) into the builder. -/
def upPartBuilder (authKey mimeType now : GoStr) (_partNumber : Nat) :
    OSSPartUploadHeaderBuilder :=
  { authKey := authKey, mimeType := mimeType, timestamp := now, hashCtx := none }

/-! ## Definitions: upPart response handling (part_003 upPart) -/

/-- strings.Trim(s, quote): remove all leading and trailing double quotes. -/
def trimQuotes (s : GoStr) : GoStr :=
  ((s.dropWhile (fun c => c = '"')).reverse.dropWhile (fun c => c = '"')).reverse

/-- Model of an object-store response to a part PUT.  The XML body is
abstracted into the two observations upPart makes of it: whether the raw body
contains the substring PartAlreadyExist, and the PartEtag field produced by
xml.Unmarshal (xmlOk false models an unmarshal error). -/
structure PartPutResponse where
  statusCode : Nat
  etagHeader : GoStr
  bodyHasPartAlreadyExist : Bool
  xmlOk : Bool
  bodyPartEtag : GoStr
deriving Repr, DecidableEq

/-- Result of one upPart call: the recorded ETag, or a Go error. -/
inductive UpPartResult where
  | ok (etag : GoStr)
  | err
deriving Repr, DecidableEq

/-- The response-handling tail of upPart (part_003 lines 236-267): a 409
whose body contains PartAlreadyExist and unmarshals to a non-empty PartEtag
is treated as a success carrying the quote-trimmed ETag; any other response
with status at least 400 is an error; below 400 the ETag response header is
required and returned. -/
def upPartHandleResponse (r : PartPutResponse) : UpPartResult :=
  if 400 ≤ r.statusCode then
    if r.statusCode = 409 ∧ r.bodyHasPartAlreadyExist = true then
      if r.xmlOk = true ∧ r.bodyPartEtag ≠ [] then .ok (trimQuotes r.bodyPartEtag)
      else .err
    else .err
  else if r.etagHeader = [] then .err
  else .ok r.etagHeader

/-! ## Definitions: credential pool failover (quark_client.go) -/

/-- strings.TrimSpace (whitespace per Char.isWhitespace). -/
def trimSpace (s : GoStr) : GoStr :=
  ((s.dropWhile Char.isWhitespace).reverse.dropWhile Char.isWhitespace).reverse

/-- splitCookieString from quark_client.go: split on semicolons that are
outside double quotes; the final segment is kept when non-empty. -/
def splitCookieLoop : GoStr → Bool → GoStr → List GoStr → List GoStr
  | [], _, current, parts => if current ≠ [] then parts ++ [current] else parts
  | c :: rest, inQuotes, current, parts =>
    if c = '"' then splitCookieLoop rest (!inQuotes) (current ++ [c]) parts
    else if c = ';' ∧ inQuotes = false then
      splitCookieLoop rest inQuotes [] (parts ++ [current])
    else splitCookieLoop rest inQuotes (current ++ [c]) parts

/-- One iteration of the parseCookie loop body: trim the segment, find the
first equals sign, trim key and value, and keep the pair when the key is
non-empty. -/
def parseCookiePair (part : GoStr) : Option (GoStr × GoStr) :=
  let p := trimSpace part
  if p = [] then none
  else
    match p.findIdx? (fun c => c = '=') with
    | none => none
    | some i =>
      let key := trimSpace (p.take i)
      let value := trimSpace (p.drop (i + 1))
      if key ≠ [] then some (key, value) else none

/-- parseCookie from quark_client.go: the cookie string parsed into key/value
pairs (the Go map is modelled as the list of inserted pairs). -/
def parseCookie (cookieStr : GoStr) : List (GoStr × GoStr) :=
  (splitCookieLoop cookieStr false [] []).filterMap parseCookiePair

/-- The credential-pool fragment of QuarkClient's state. -/
structure TokenPool where
  accessTokens : List GoStr
  currentTokenIdx : Nat
  accessToken : GoStr
  cookies : List (GoStr × GoStr)
  failedTokens : List Nat
  authCheckValid : Bool
deriving Repr, DecidableEq

/-- failedTokens[idx] lookup; indices missing from the map read as false. -/
def isFailed (failed : List Nat) (i : Nat) : Bool := failed.contains i

/-- The scan loop of switchToNextToken: for i in 0..n-1 probe the ring index
(cur + 1 + i) mod n and return the first one not marked failed. -/
def findUnfailed (failed : List Nat) (n cur : Nat) : Nat → Nat → Option Nat
  | _, 0 => none
  | i, remaining + 1 =>
    let idx := (cur + 1 + i) % n
    if isFailed failed idx then findUnfailed failed n cur (i + 1) remaining
    else some idx

/-- switchToNextToken from quark_client.go: mark the current index failed,
scan the ring for the next unfailed index, and either switch to it (updating
the active token, its cookie map and resetting the auth cache) or report that
all access tokens have failed. -/
def switchToNextToken (qc : TokenPool) : TokenPool × Option GoStr :=
  match findUnfailed (qc.currentTokenIdx :: qc.failedTokens) qc.accessTokens.length
      qc.currentTokenIdx 0 qc.accessTokens.length with
  | some nextIdx =>
    ({ qc with
        failedTokens := qc.currentTokenIdx :: qc.failedTokens,
        currentTokenIdx := nextIdx,
        accessToken := qc.accessTokens.getD nextIdx [],
        cookies := parseCookie (qc.accessTokens.getD nextIdx []),
        authCheckValid := false }, none)
  | none =>
    ({ qc with failedTokens := qc.currentTokenIdx :: qc.failedTokens },
      some (gs "all access tokens have failed"))

/-! ## Definitions: the durable upload session and its JSON record

saveUploadState / loadUploadState (part_003 lines 33-53) marshal an
UploadState through encoding/json.  The JSON value is modelled by an explicit
tree; Go's time.Time is modelled as an integer timestamp and json.RawMessage
as an embedded JSON value.  save stamps CreatedAt with the current time
before writing, exactly as the source does.
-/

/-- A JSON value (the fragment the session record uses).  Object keys are
Lean strings; JSON string payloads are Go strings. -/
inductive Jx where
  | str (s : GoStr)
  | num (n : Int)
  | obj (fields : List (String × Jx))
  | null
deriving Repr

/-- First-match key lookup in a JSON object. -/
def jLookup (fields : List (String × Jx)) (key : String) : Option Jx :=
  (fields.find? (fun kv => decide (kv.1 = key))).map Prod.snd

/-- One decimal digit to its character. -/
def digitChar (d : Nat) : Char :=
  if d = 0 then '0' else if d = 1 then '1' else if d = 2 then '2'
  else if d = 3 then '3' else if d = 4 then '4' else if d = 5 then '5'
  else if d = 6 then '6' else if d = 7 then '7' else if d = 8 then '8' else '9'

/-- A character back to its decimal digit, when it is one. -/
def digitVal (c : Char) : Option Nat :=
  if c = '0' then some 0 else if c = '1' then some 1 else if c = '2' then some 2
  else if c = '3' then some 3 else if c = '4' then some 4 else if c = '5' then some 5
  else if c = '6' then some 6 else if c = '7' then some 7 else if c = '8' then some 8
  else if c = '9' then some 9 else none

/-- strconv-style decimal rendering of a natural number. -/
def natToStr (n : Nat) : GoStr :=
  if n = 0 then ['0'] else (Nat.digits 10 n).reverse.map digitChar

/-- Parse a non-empty all-digit string as a natural number. -/
def strToNat (s : GoStr) : Option Nat :=
  if s = [] then none
  else (s.mapM digitVal).map (fun ds => Nat.ofDigits 10 ds.reverse)

/-- strconv-style rendering of a Go int. -/
def intToStr (i : Int) : GoStr :=
  if i < 0 then '-' :: natToStr (-i).toNat else natToStr i.toNat

/-- Parse a decimal string as a Go int. -/
def strToInt (s : GoStr) : Option Int :=
  match s with
  | [] => none
  | c :: rest =>
    if c = '-' then (strToNat rest).map (fun n => -(n : Int))
    else (strToNat (c :: rest)).map (fun n => (n : Int))

/-- Decimal rendering of a map key, as a JSON object key. -/
def intToString (i : Int) : String := String.mk (intToStr i)

/-- Parse a JSON object key back to a map key. -/
def stringToInt (s : String) : Option Int := strToInt s.data

/-- UploadState from types.go lines 110-127: the durable in-flight-upload
session record, fields in source order.  UploadedParts is a Go map that can
be nil: `none` is the nil map (a missing or null uploaded_parts key leaves
it nil, and writing into it panics), `some kvs` a non-nil map with the given
entries. -/
structure UploadState where
  filePath : GoStr
  destPath : GoStr
  fileSize : Int
  uploadID : GoStr
  taskID : GoStr
  bucket : GoStr
  objKey : GoStr
  uploadURL : GoStr
  partSize : Int
  uploadedParts : Option (List (Int × GoStr))
  mimeType : GoStr
  authInfo : Jx
  callback : Jx
  hashCtx : Option HashCtx
  createdAt : Int
deriving Repr

/-- Encode a HashCtx value into its JSON object (types.go field tags). -/
def encodeHashCtxJ (c : HashCtx) : Jx :=
  .obj [("hash_type", .str c.hashType), ("h0", .str c.h0), ("h1", .str c.h1),
        ("h2", .str c.h2), ("h3", .str c.h3), ("h4", .str c.h4),
        ("Nl", .str c.nl), ("Nh", .str c.nh), ("data", .str c.data),
        ("num", .str c.num)]

/-- saveUploadState (part_003 lines 46-53): stamp CreatedAt with the save
time, then marshal the session into its JSON record; the uploaded-parts map
keys are rendered in decimal, a nil map marshals to null (no omitempty on
the map field), and the hash context is omitted when nil (omitempty on a
pointer field). -/
def saveUploadState (now : Int) (s : UploadState) : Jx :=
  .obj ([("file_path", .str s.filePath),
         ("dest_path", .str s.destPath),
         ("file_size", .num s.fileSize),
         ("upload_id", .str s.uploadID),
         ("task_id", .str s.taskID),
         ("bucket", .str s.bucket),
         ("obj_key", .str s.objKey),
         ("upload_url", .str s.uploadURL),
         ("part_size", .num s.partSize),
         ("uploaded_parts",
           match s.uploadedParts with
           | some kvs => .obj (kvs.map (fun kv => (intToString kv.1, Jx.str kv.2)))
           | none => .null),
         ("mime_type", .str s.mimeType),
         ("auth_info", s.authInfo),
         ("callback", s.callback)]
    ++ (match s.hashCtx with
        | some c => [("hash_ctx", encodeHashCtxJ c)]
        | none => [])
    ++ [("created_at", .num now)])

/-- Unmarshal a string field: a missing key or JSON null leaves the zero
value; any other non-string value is a decode error. -/
def jGetStr (fields : List (String × Jx)) (key : String) : Option GoStr :=
  match jLookup fields key with
  | none => some []
  | some (.str s) => some s
  | some .null => some []
  | some _ => none

/-- Unmarshal an integer field with Go zero-value semantics. -/
def jGetInt (fields : List (String × Jx)) (key : String) : Option Int :=
  match jLookup fields key with
  | none => some 0
  | some (.num n) => some n
  | some .null => some 0
  | some _ => none

/-- Unmarshal one uploaded-parts entry: key parsed back to an int, value a
string. -/
def decodePartEntry (kv : String × Jx) : Option (Int × GoStr) :=
  match stringToInt kv.1, kv.2 with
  | some k, .str v => some (k, v)
  | _, _ => none

/-- Unmarshal the uploaded-parts map, parsing each key back to an int; a
missing key or JSON null leaves the map nil (`none`), an object yields a
non-nil map. -/
def jGetParts (fields : List (String × Jx)) (key : String) :
    Option (Option (List (Int × GoStr))) :=
  match jLookup fields key with
  | none => some none
  | some .null => some none
  | some (.obj kvs) => (kvs.mapM decodePartEntry).map some
  | some _ => none

/-- Unmarshal a json.RawMessage field: the raw value verbatim, null when the
key is missing. -/
def jGetRaw (fields : List (String × Jx)) (key : String) : Jx :=
  match jLookup fields key with
  | none => .null
  | some v => v

/-- Unmarshal the optional hash context (a nil pointer when missing/null). -/
def jGetHashCtx (fields : List (String × Jx)) (key : String) :
    Option (Option HashCtx) :=
  match jLookup fields key with
  | none => some none
  | some .null => some none
  | some (.obj kvs) => do
    let hashType ← jGetStr kvs "hash_type"
    let h0 ← jGetStr kvs "h0"
    let h1 ← jGetStr kvs "h1"
    let h2 ← jGetStr kvs "h2"
    let h3 ← jGetStr kvs "h3"
    let h4 ← jGetStr kvs "h4"
    let nl ← jGetStr kvs "Nl"
    let nh ← jGetStr kvs "Nh"
    let dat ← jGetStr kvs "data"
    let num ← jGetStr kvs "num"
    some (some { hashType, h0, h1, h2, h3, h4, nl, nh, data := dat, num })
  | some _ => none

/-- loadUploadState (part_003 lines 33-43): unmarshal the record back into an
UploadState; a malformed record is a load error. -/
def loadUploadState (j : Jx) : Option UploadState :=
  match j with
  | .obj fields => do
    let filePath ← jGetStr fields "file_path"
    let destPath ← jGetStr fields "dest_path"
    let fileSize ← jGetInt fields "file_size"
    let uploadID ← jGetStr fields "upload_id"
    let taskID ← jGetStr fields "task_id"
    let bucket ← jGetStr fields "bucket"
    let objKey ← jGetStr fields "obj_key"
    let uploadURL ← jGetStr fields "upload_url"
    let partSize ← jGetInt fields "part_size"
    let uploadedParts ← jGetParts fields "uploaded_parts"
    let mimeType ← jGetStr fields "mime_type"
    let authInfo := jGetRaw fields "auth_info"
    let callback := jGetRaw fields "callback"
    let hashCtx ← jGetHashCtx fields "hash_ctx"
    let createdAt ← jGetInt fields "created_at"
    some { filePath, destPath, fileSize, uploadID, taskID, bucket, objKey,
           uploadURL, partSize, uploadedParts, mimeType, authInfo, callback,
           hashCtx, createdAt }
  | _ => none

/-- A concrete session value used to exhibit the CreatedAt overwrite. -/
def exampleState : UploadState :=
  { filePath := gs "/tmp/a.bin", destPath := gs "/dest/a.bin", fileSize := 42,
    uploadID := gs "uid", taskID := gs "tid", bucket := gs "bkt",
    objKey := gs "key", uploadURL := gs "oss-cn.example.com", partSize := 4,
    uploadedParts := some [], mimeType := gs "application/octet-stream",
    authInfo := .null, callback := .null, hashCtx := none, createdAt := 0 }

/-! ## Definitions: session validation at the start of Upload -/

/-- The PreUploadResponse fields reused from a stored session (part_003
lines 571-583). -/
structure PreUpload where
  code : Int
  status : Int
  taskID : GoStr
  bucket : GoStr
  objKey : GoStr
  uploadID : GoStr
  uploadURL : GoStr
  authInfo : Jx
  callback : Jx
  partSize : Int
deriving Repr

/-- The PreUploadResponse assembled from a stored session. -/
def preFromState (st : UploadState) : PreUpload :=
  { code := 0, status := 200, taskID := st.taskID, bucket := st.bucket,
    objKey := st.objKey, uploadID := st.uploadID, uploadURL := st.uploadURL,
    authInfo := st.authInfo, callback := st.callback, partSize := st.partSize }

/-- Result of loadUploadState as UploadFile sees it: a Go error (unreadable
or unparsable record) or a session value. -/
inductive LoadResult where
  | failed
  | loaded (st : UploadState)

/-- What the session-validation block decides (part_003 lines 561-593). -/
structure SessionDecision where
  useSavedState : Bool
  stateDeleted : Bool
  pre : Option PreUpload
  savedState : Option UploadState

/-- The session-validation block at the start of Upload (part_003 lines
561-593): a loaded session is trusted only when its recorded local path,
destination path and file size all equal the current attempt's; otherwise the
record is deleted and the upload proceeds as if no session existed.  The
block never produces an error. -/
def checkSavedSession (load : LoadResult) (filePath destPath : GoStr)
    (fileSize : Int) : SessionDecision :=
  match load with
  | .failed =>
    { useSavedState := false, stateDeleted := false, pre := none, savedState := none }
  | .loaded st =>
    if st.filePath = filePath ∧ st.destPath = destPath ∧ st.fileSize = fileSize then
      { useSavedState := true, stateDeleted := false, pre := some (preFromState st),
        savedState := some st }
    else
      { useSavedState := false, stateDeleted := true, pre := none, savedState := none }

/-! ## Definitions: paginated directory listing and name resolution

listByFid (part_003 lines 1470-1656) pages through the listing endpoint and
concatenates the parsed entries; GetFileInfo (part_003 lines 1897-1926) then
linear-scans the concatenation for the leaf name.  The wire-level JSON
parsing of each entry is abstracted: pages arrive as parsed entries served by
a truthful remote holding a fixed directory content.
-/

/-- A directory entry as listByFid parses it from a listing page. -/
structure QFileInfo where
  fid : GoStr
  name : GoStr
  size : Int
  isDir : Bool
deriving Repr, DecidableEq

/-- A truthful paginated server over fixed directory contents: page p
(1-based) of size sz is the corresponding slice. -/
def servePage (all : List QFileInfo) (sz page : Nat) : List QFileInfo :=
  (all.drop ((page - 1) * sz)).take sz

/-- The pagination loop of listByFid, with fuel: stop on an empty page;
append the page; stop on a short page; otherwise continue while the
accumulated count is below the server-declared total, or — when no total is
declared — while the page came back full. -/
def listByFidLoop (all : List QFileInfo) (sz : Nat) (total? : Option Nat) :
    Nat → Nat → List QFileInfo → List QFileInfo
  | 0, _, acc => acc
  | fuel + 1, page, acc =>
    let pageList := servePage all sz page
    if pageList = [] then acc
    else
      let acc2 := acc ++ pageList
      if pageList.length < sz then acc2
      else if (match total? with
               | some t => decide (acc2.length < t)
               | none => decide (pageList.length = sz)) then
        listByFidLoop all sz total? fuel (page + 1) acc2
      else acc2

/-- listByFid against a truthful server that declares total = all.length,
with the source's page size of 50 and ample fuel (one iteration consumes at
least 50 entries, so length + 1 pages always suffice). -/
def listByFid (all : List QFileInfo) : List QFileInfo :=
  listByFidLoop all 50 (some all.length) (all.length + 1) 1 []

/-- The scan tail of GetFileInfo: linear-scan the concatenated listing for
the leaf name; FILE_NOT_FOUND when it is absent. -/
def getFileInfoScan (fileName : GoStr) (all : List QFileInfo) :
    Except GoStr QFileInfo :=
  match (listByFid all).find? (fun f => decide (f.name = fileName)) with
  | some f => .ok f
  | none => .error (gs "FILE_NOT_FOUND")

/-! ## Definitions: the upload orchestration (part_003 UploadFile, lines 406-985)

UploadFile is embedded against an environment oracle holding the local
filesystem's and the remote's behaviour: os.Open/Stat outcomes, GetFileInfo
and CreateFolder responses (Go (resp, err) pairs), the upPre/upHash/upPart/
upCommit/upFinish exchanges, the saved-session load, the mime table, and the
script of file.Read results seen by the chunk loop.  The function returns the
Go (resp, err) pair together with the list of resolution, folder-creation and
pre-upload calls it issued, in program order; `none` models a crash: the
unguarded nil-pointer dereference (destDirInfo.Success on a nil response,
line 534), the make([]byte, partSize) panic on a negative part size (line
756), and the nil-map write panic when a trusted record's UploadedParts map
is nil (lines 781, 821, 854).  State-file writes (saveUploadState /
deleteUploadState) and the progress callback are I/O effects that feed
neither the return value nor these calls; the per-chunk state save is
modelled only through its panic condition. -/

/-- The StandardResponse fields UploadFile constructs and inspects; Data is
abstracted to the one key the function reads, the "fid" string. -/
structure StdResp where
  success : Bool
  code : GoStr
  message : GoStr
  dataFid : Option GoStr
deriving Repr, DecidableEq

/-- A Go (\*StandardResponse, error) pair as returned by GetFileInfo and
CreateFolder. -/
structure GoRet where
  resp : Option StdResp
  err : Option GoStr
deriving Repr, DecidableEq

/-- The fields of an upFinish / upCommit response that UploadFile inspects. -/
structure FinishResp where
  code : Int
  status : Int
  dataFid : Option GoStr
deriving Repr, DecidableEq

/-- One result of file.Read in the chunk loop: io.EOF, a read error, or n
bytes. -/
inductive ReadRes where
  | eof
  | err (e : GoStr)
  | bytes (n : Nat)
deriving Repr, DecidableEq

/-- The remote calls UploadFile issues while resolving and materialising the
destination and negotiating the upload: GetFileInfo on a path, CreateFolder
with the name and the pdirFid argument as passed (CreateFolder itself then
applies normalizeRootDir) together with the fid carried in the response's
Data, and upPre with its parent identifier. -/
inductive CallEv where
  | getInfo (path : GoStr)
  | createFolder (name pdirFid : GoStr) (returnedFid : Option GoStr)
  | preUpload (parentID : GoStr)
deriving Repr, DecidableEq

/-- The environment oracle for one UploadFile run. -/
structure UploadEnv where
  openErr : Option GoStr
  statErr : Option GoStr
  fileSize : Int
  localName : GoStr
  getInfo : GoStr → GoRet
  createFolder : GoStr → GoStr → GoRet
  upPre : GoStr → GoStr → Int → GoStr → Except GoStr PreUpload
  loadState : Option UploadState
  copyErr : Option GoStr
  upHash : GoStr → Except GoStr Bool
  upFinish : Except GoStr FinishResp
  upCommit : Except GoStr (Int × Int)
  readScript : List ReadRes
  upPart : Int → Except GoStr GoStr
  mimeTypeOf : GoStr → GoStr

/-- An error StandardResponse literal as UploadFile builds them: Success
false, the given code and message, nil Data. -/
def errResp (code msg : GoStr) : StdResp :=
  { success := false, code := code, message := msg, dataFid := none }

/-- The success StandardResponse built after upFinish (lines 700-705 and
970-975): Success true, code OK, the finish Data minus preview_url. -/
def okFinishResp (dataFid : Option GoStr) : StdResp :=
  { success := true, code := gs "OK", message := gs "上传完成", dataFid := dataFid }

/-- strings.LastIndex(s, slash): byte index of the last slash, -1 if none. -/
def lastIndexSlashAux : GoStr → Nat → Int → Int
  | [], _, best => best
  | c :: rest, i, best =>
    lastIndexSlashAux rest (i + 1) (if c = '/' then (i : Int) else best)

def lastIndexSlash (s : GoStr) : Int := lastIndexSlashAux s 0 (-1)

/-- filepath.Base on a slash-separated path: "." for the empty path, strip
trailing slashes, "/" when only slashes remain, else the last element. -/
def filepathBase (p : GoStr) : GoStr :=
  if p = [] then gs "."
  else
    let q := (p.reverse.dropWhile (fun c => c = '/')).reverse
    if q = [] then gs "/"
    else (q.reverse.takeWhile (fun c => decide (c ≠ '/'))).reverse

/-- filepath.Ext: the suffix from the last dot in the final element,
empty when that element has no dot. -/
def filepathExt (p : GoStr) : GoStr :=
  let tail := p.reverse.takeWhile (fun c => decide (c ≠ '/'))
  let beforeDot := tail.takeWhile (fun c => decide (c ≠ '.'))
  if beforeDot.length = tail.length then []
  else (beforeDot ++ gs ".").reverse

/-- strings.TrimSuffix(s, slash). -/
def trimSuffixSlash (s : GoStr) : GoStr :=
  if hasSuffixSlash s = true then s.dropLast else s

/-- strings.Trim(s, slash): strip leading and trailing slashes. -/
def trimSlashes (s : GoStr) : GoStr :=
  ((s.dropWhile (fun c => c = '/')).reverse.dropWhile (fun c => c = '/')).reverse

/-- strings.Split(s, slash), keeping empty fields. -/
def splitSlashAux : GoStr → GoStr → List GoStr
  | [], cur => [cur.reverse]
  | c :: rest, cur =>
    if c = '/' then cur.reverse :: splitSlashAux rest []
    else splitSlashAux rest (c :: cur)

def splitSlash (s : GoStr) : List GoStr := splitSlashAux s []

/-- CreateFolder (part_003 lines 988-996): normalizeRootDir is applied to the
pdirFid argument before the request; the exchange itself is the oracle's. -/
def createFolderGo (env : UploadEnv) (folderName pdirFid : GoStr) : GoRet :=
  env.createFolder folderName (normalizeRootDir pdirFid)

/-- The needCreate test of lines 460 and 476: a Go error, or a non-nil
unsuccessful response whose code is FILE_NOT_FOUND. -/
def needCreateOf (gi : GoRet) : Bool :=
  gi.err.isSome ||
    (match gi.resp with
     | some di => !di.success && decide (di.code = gs "FILE_NOT_FOUND")
     | none => false)

/-- Lines 534-551: reject an unsuccessful directory info with its own code,
then extract a non-empty fid from its Data, else INVALID_DIRECTORY_INFO. -/
def finishMaterialize (di : StdResp) (tr : List CallEv) :
    Except StdResp GoStr × List CallEv :=
  if di.success = false then
    (.error (errResp di.code (gs "failed to get destination directory")), tr)
  else
    match di.dataFid with
    | some fid =>
      if fid = [] then
        (.error (errResp (gs "INVALID_DIRECTORY_INFO")
          (gs "destination directory info is invalid: fid not found or empty")), tr)
      else (.ok fid, tr)
    | none =>
      (.error (errResp (gs "INVALID_DIRECTORY_INFO")
        (gs "destination directory info is invalid: fid not found or empty")), tr)

/-- One iteration of the folder-materialisation loop (lines 465-512) for a
non-empty path element: extend and normalise currentPath, check it with
GetFileInfo, and when the element needs creating, call CreateFolder with the
parent PATH (the text before the last slash, normalised; the root otherwise),
fail with CREATE_DIRECTORY_ERROR on a Go error, a nil response or an
unsuccessful response, and otherwise carry forward the fid from the
response's Data (when present and non-empty) as lastCreatedFid.  Returns the
new (currentPath, lastCreatedFid) and the calls issued. -/
def materializeStep (env : UploadEnv) (part cur lastFid : GoStr) :
    Except StdResp (GoStr × GoStr) × List CallEv :=
  let cur2 := normalizePath (if cur = [] then gs "/" ++ part else cur ++ gs "/" ++ part)
  let gi := env.getInfo cur2
  if needCreateOf gi = true then
    let ls := lastIndexSlash cur2
    let parentPathForCreate :=
      if cur2 ≠ gs "/" ∧ cur2 ≠ [] ∧ 0 < ls then normalizePath (cur2.take ls.toNat)
      else gs "/"
    let cr := createFolderGo env part parentPathForCreate
    let retFid : Option GoStr :=
      match cr.resp with
      | some r => r.dataFid
      | none => none
    let evs := [CallEv.getInfo cur2,
                CallEv.createFolder part parentPathForCreate retFid]
    match cr.err with
    | some _ =>
      (.error (errResp (gs "CREATE_DIRECTORY_ERROR")
        (gs "failed to create directory")), evs)
    | none =>
      match cr.resp with
      | none =>
        (.error (errResp (gs "CREATE_DIRECTORY_ERROR")
          (gs "failed to create directory: unknown error")), evs)
      | some cresp =>
        if cresp.success = false then
          (.error (errResp (gs "CREATE_DIRECTORY_ERROR")
            (gs "failed to create directory")), evs)
        else
          (.ok (cur2,
            match cresp.dataFid with
            | some f => if f = [] then lastFid else f
            | none => lastFid), evs)
  else (.ok (cur2, lastFid), [CallEv.getInfo cur2])

/-- The materialisation loop over the split path elements (lines 465-512):
empty elements are skipped; an error return ends UploadFile; otherwise the
loop ends with the final lastCreatedFid. -/
def materializeLoop (env : UploadEnv) :
    List GoStr → GoStr → GoStr → List CallEv → Except StdResp GoStr × List CallEv
  | [], _cur, lastFid, tr => (.ok lastFid, tr)
  | part :: rest, cur, lastFid, tr =>
    if part = [] then materializeLoop env rest cur lastFid tr
    else
      match materializeStep env part cur lastFid with
      | (.error r, evs) => (.error r, tr ++ evs)
      | (.ok cl, evs) => materializeLoop env rest cl.1 cl.2 (tr ++ evs)

/-- Lines 458-554: for a non-root destination directory, check it, create the
missing chain when needed, and produce the parent fid for negotiation: the
last created fid when one was obtained, else the fid of a (re-)queried
directory info; a root destination maps straight to "0".  `none` is the nil
dereference of destDirInfo.Success when GetFileInfo returned (nil, nil). -/
def materializeDest (env : UploadEnv) (destDirPath : GoStr) :
    Option (Except StdResp GoStr × List CallEv) :=
  if destDirPath ≠ gs "/" ∧ destDirPath ≠ [] ∧ destDirPath ≠ gs "." then
    if needCreateOf (env.getInfo destDirPath) = true then
      match materializeLoop env (splitSlash (trimSlashes destDirPath)) [] []
          [CallEv.getInfo destDirPath] with
      | (.error r, tr) => some (.error r, tr)
      | (.ok lastFid, tr) =>
        if lastFid ≠ [] then
          some (finishMaterialize
            { success := true, code := gs "OK", message := gs "Directory created",
              dataFid := some lastFid } tr)
        else
          match (env.getInfo destDirPath).err with
          | some _ =>
            some (.error (errResp (gs "GET_DIRECTORY_INFO_ERROR")
              (gs "failed to get destination directory info")),
              tr ++ [CallEv.getInfo destDirPath])
          | none =>
            match (env.getInfo destDirPath).resp with
            | none => none
            | some di2 =>
              some (finishMaterialize di2 (tr ++ [CallEv.getInfo destDirPath]))
    else
      match (env.getInfo destDirPath).resp with
      | none => none
      | some di => some (finishMaterialize di [CallEv.getInfo destDirPath])
  else some (.ok (gs "0"), [])

/-- map lookup savedState.UploadedParts[i]. -/
def lookupPart (parts : List (Int × GoStr)) (i : Int) : Option GoStr :=
  (parts.find? (fun p => p.1 = i)).map (fun p => p.2)

/-- The resume fill of lines 716-734: walk partNumber 1..maxPart, append each
present etag and advance startPartNumber past it; stop at the first gap. -/
def resumeScanLoop (parts : List (Int × GoStr)) :
    Nat → Int → List GoStr → Int → List GoStr × Int
  | 0, _i, etags, start => (etags, start)
  | k + 1, i, etags, _start =>
    match lookupPart parts i with
    | some etag => resumeScanLoop parts k (i + 1) (etags ++ [etag]) (i + 1)
    | none => (etags, i)

/-- Lines 715-735: maxPart is the largest stored part number; etags start
empty and startPartNumber at 1. -/
def resumeScan (parts : List (Int × GoStr)) : List GoStr × Int :=
  let maxPart := parts.foldl (fun m p => if m < p.1 then p.1 else m) 0
  resumeScanLoop parts maxPart.toNat 1 [] 1

/-- The etags/startPartNumber pair entering the chunk loop: the resume fill
when a saved session is in use, else empty/1 (lines 711-752).  Ranging over a
nil map is legal in Go and yields nothing, so a nil UploadedParts map resumes
with no etags from part 1. -/
def resumeOf (useSaved : Bool) (saved : Option UploadState) : List GoStr × Int :=
  if useSaved = true then
    match saved with
    | some st =>
      match st.uploadedParts with
      | some parts => resumeScan parts
      | none => ([], 1)
    | none => ([], 1)
  else ([], 1)

/-- True exactly when the savedState the chunk loop writes into carries a nil
UploadedParts map: a trusted (useSavedState) record whose uploaded_parts was
missing or null.  When !useSavedState the loop builds a fresh state with
make(map) before every write (lines 763-778, 803-818, 837-853). -/
def nilPartsOf (useSaved : Bool) (saved : Option UploadState) : Bool :=
  useSaved &&
    (match saved with
     | some st => decide (st.uploadedParts = none)
     | none => false)

/-- The chunk loop of lines 754-926 over the script of read results: io.EOF
or a zero-length read break the loop; a read error returns READ_FILE_ERROR; a
failed part PUT returns UPLOAD_PART_ERROR; otherwise the etag is appended and
partNumber advances.  The per-chunk state save is modelled through its panic
condition: the error paths replay the collected etags into
savedState.UploadedParts (lines 781, 821) and the success path writes the new
etag into it (line 854), so any write with a nil map — nilMap true, and for
the error paths a non-empty etags list — is a runtime panic, `none`.
(make([]byte, partSize) at line 756 panics before the first read; that guard
sits in uploadChunksCommit.) -/
def chunkLoop (env : UploadEnv) (nilMap : Bool) :
    List ReadRes → Int → List GoStr → Option (Except StdResp (List GoStr))
  | [], _pn, etags => some (.ok etags)
  | r :: rest, pn, etags =>
    match r with
    | .eof => some (.ok etags)
    | .err _ =>
      if nilMap && !etags.isEmpty then none
      else some (.error (errResp (gs "READ_FILE_ERROR") (gs "failed to read file chunk")))
    | .bytes n =>
      if n = 0 then some (.ok etags)
      else
        match env.upPart pn with
        | .error _ =>
          if nilMap && !etags.isEmpty then none
          else some (.error (errResp (gs "UPLOAD_PART_ERROR") (gs "failed to upload part")))
        | .ok etag =>
          if nilMap then none
          else chunkLoop env nilMap rest (pn + 1) (etags ++ [etag])

/-- The upFinish confirmation (lines 659-706 and 939-976, identical returns):
a Go error or a non-(0, 200) response is FINISH_UPLOAD_ERROR; else the
success response. -/
def upFinishStage (env : UploadEnv) (tr : List CallEv) :
    (StdResp × Option GoStr) × List CallEv :=
  match env.upFinish with
  | .error _ =>
    ((errResp (gs "FINISH_UPLOAD_ERROR") (gs "finish upload failed"), none), tr)
  | .ok f =>
    if f.code ≠ 0 ∨ f.status ≠ 200 then
      ((errResp (gs "FINISH_UPLOAD_ERROR") (gs "finish upload failed"), none), tr)
    else ((okFinishResp f.dataFid, none), tr)

/-- The commit tail of lines 928-984: a Go error or a non-(0, 200) OSS commit
is COMMIT_UPLOAD_ERROR; a good commit is confirmed with upFinish. -/
def uploadCommitTail (env : UploadEnv) (res : Except StdResp (List GoStr))
    (tr : List CallEv) : (StdResp × Option GoStr) × List CallEv :=
  match res with
  | .error r => ((r, none), tr)
  | .ok _etags =>
    match env.upCommit with
    | .error _ =>
      ((errResp (gs "COMMIT_UPLOAD_ERROR") (gs "commit upload failed"), none), tr)
    | .ok cs =>
      if cs.1 = 0 ∧ cs.2 = 200 then upFinishStage env tr
      else ((errResp (gs "COMMIT_UPLOAD_ERROR") (gs "commit upload failed"), none), tr)

/-- Resume fill, chunk loop and commit (lines 708-984).  The loop body opens
with chunk := make([]byte, partSize) (line 756) before the first read, and
make panics on a negative length, so a negative part size — from the upPre
response or from a trusted saved record — crashes the upload: `none`. -/
def uploadChunksCommit (env : UploadEnv) (useSaved : Bool)
    (saved : Option UploadState) (partSize : Int) (tr : List CallEv) :
    Option ((StdResp × Option GoStr) × List CallEv) :=
  if partSize < 0 then none
  else
    match chunkLoop env (nilPartsOf useSaved saved) env.readScript
        (resumeOf useSaved saved).2 (resumeOf useSaved saved).1 with
    | none => none
    | some res => some (uploadCommitTail env res tr)

/-- Line 659: a finished hash check is the instant-upload confirmation;
otherwise the chunks are transferred and committed. -/
def uploadAfterHash (env : UploadEnv) (finish useSaved : Bool)
    (saved : Option UploadState) (partSize : Int) (tr : List CallEv) :
    Option ((StdResp × Option GoStr) × List CallEv) :=
  if finish = true then some (upFinishStage env tr)
  else uploadChunksCommit env useSaved saved partSize tr

/-- The upHash exchange of lines 625-657: on a Go error with a saved session
in use, the session is dropped, upPre is retried and upHash repeated (the
retry's failure is HASH_VERIFICATION_ERROR, the re-negotiation's
PRE_UPLOAD_ERROR); without a saved session the error is
HASH_VERIFICATION_ERROR at once. -/
def uploadHashStage (env : UploadEnv) (pre : PreUpload) (useSaved : Bool)
    (saved : Option UploadState) (destFileName mimeType dirFid : GoStr)
    (fileSize : Int) (tr : List CallEv) :
    Option ((StdResp × Option GoStr) × List CallEv) :=
  match env.upHash pre.taskID with
  | .ok finish => uploadAfterHash env finish useSaved saved pre.partSize tr
  | .error _ =>
    if useSaved = true then
      match env.upPre destFileName mimeType fileSize dirFid with
      | .error _ =>
        some ((errResp (gs "PRE_UPLOAD_ERROR") (gs "pre-upload failed"), none),
          tr ++ [CallEv.preUpload dirFid])
      | .ok pre2 =>
        match env.upHash pre2.taskID with
        | .error _ =>
          some ((errResp (gs "HASH_VERIFICATION_ERROR") (gs "hash verification failed"),
            none), tr ++ [CallEv.preUpload dirFid])
        | .ok finish =>
          uploadAfterHash env finish false saved pre2.partSize
            (tr ++ [CallEv.preUpload dirFid])
    else
      some ((errResp (gs "HASH_VERIFICATION_ERROR") (gs "hash verification failed"),
        none), tr)

/-- The whole-file hashing of lines 608-623 (io.Copy into md5/sha1), then the
hash exchange. -/
def uploadCopyHash (env : UploadEnv) (pre : PreUpload) (useSaved : Bool)
    (saved : Option UploadState) (destFileName mimeType dirFid : GoStr)
    (fileSize : Int) (tr : List CallEv) :
    Option ((StdResp × Option GoStr) × List CallEv) :=
  match env.copyErr with
  | some _ =>
    some ((errResp (gs "CALCULATE_HASH_ERROR") (gs "failed to calculate hash"), none), tr)
  | none =>
    uploadHashStage env pre useSaved saved destFileName mimeType dirFid fileSize tr

/-- Lines 596-606: a trusted session supplies pre directly; otherwise upPre
negotiates against the materialised parent fid, PRE_UPLOAD_ERROR on a Go
error. -/
def uploadNegotiate (env : UploadEnv) (decPre : Option PreUpload)
    (useSaved : Bool) (saved : Option UploadState)
    (destFileName mimeType dirFid : GoStr) (fileSize : Int) (tr : List CallEv) :
    Option ((StdResp × Option GoStr) × List CallEv) :=
  match decPre with
  | some pre =>
    uploadCopyHash env pre useSaved saved destFileName mimeType dirFid fileSize tr
  | none =>
    match env.upPre destFileName mimeType fileSize dirFid with
    | .error _ =>
      some ((errResp (gs "PRE_UPLOAD_ERROR") (gs "pre-upload failed"), none),
        tr ++ [CallEv.preUpload dirFid])
    | .ok pre =>
      uploadCopyHash env pre useSaved saved destFileName mimeType dirFid fileSize
        (tr ++ [CallEv.preUpload dirFid])

/-- Lines 556-985 after the destination directory is materialised: mime type
with its octet-stream fallback, session validation, negotiation, hashing,
then instant finish or the chunk transfer. -/
def uploadAfterDir (env : UploadEnv) (filePath destPath destFileName dirFid : GoStr)
    (fileSize : Int) (tr : List CallEv) :
    Option ((StdResp × Option GoStr) × List CallEv) :=
  let mime0 := env.mimeTypeOf (filepathExt destFileName)
  let mimeType := if mime0 = [] then gs "application/octet-stream" else mime0
  let dec := checkSavedSession
    (match env.loadState with
     | none => LoadResult.failed
     | some st => LoadResult.loaded st)
    filePath destPath fileSize
  uploadNegotiate env dec.pre dec.useSavedState dec.savedState destFileName
    mimeType dirFid fileSize tr

/-- The dispatch on the materialisation outcome (lines 458-554 into 556-985). -/
def uploadDispatch (env : UploadEnv) (filePath destPath destFileName : GoStr)
    (fileSize : Int) (destDirPath : GoStr) :
    Option ((StdResp × Option GoStr) × List CallEv) :=
  match materializeDest env destDirPath with
  | none => none
  | some (.error r, tr) => some ((r, none), tr)
  | some (.ok dirFid, tr) =>
    uploadAfterDir env filePath destPath destFileName dirFid fileSize tr

/-- UploadFile (part_003 lines 406-985): open and stat the file, normalise
the destination and split off the file name (lines 434-441), derive and
normalise the destination directory path (443-456), materialise it, then run
the upload; every return is a (StandardResponse, nil) pair. -/
def uploadFileGo (env : UploadEnv) (filePath destPath0 : GoStr) :
    Option ((StdResp × Option GoStr) × List CallEv) :=
  match env.openErr with
  | some _ =>
    some ((errResp (gs "FILE_OPEN_ERROR") (gs "failed to open file"), none), [])
  | none =>
    match env.statErr with
    | some _ =>
      some ((errResp (gs "FILE_INFO_ERROR") (gs "failed to get file info"), none), [])
    | none =>
      let dp1 := normalizePath destPath0
      let base := filepathBase dp1
      let pair :=
        if hasSuffixSlash dp1 = true ∨ base = [] ∨ base = gs "." then
          (trimSuffixSlash dp1 ++ gs "/" ++ env.localName, env.localName)
        else (dp1, base)
      let destDirPath1 := normalizePath
        (if pair.1 = gs "/" ∨ pair.1 = [] then gs "/"
         else if lastIndexSlash pair.1 = 0 then gs "/"
         else if 0 < lastIndexSlash pair.1 then pair.1.take (lastIndexSlash pair.1).toNat
         else gs "/")
      uploadDispatch env filePath pair.1 pair.2 env.fileSize destDirPath1

/-! ## Definitions: the folder-creation chain as the spec describes it (C8)

The scenario of the claim: destination "/new/deep/dir/file.bin", none of the
three ancestors exist (every GetFileInfo answers FILE_NOT_FOUND), every
CreateFolder succeeds and returns a fresh fid "F" ++ name, and the upload
then finishes instantly. -/

/-- The creation calls of a trace: (folderName, pdirFid as passed, fid
returned in the response Data). -/
def creationsOf : List CallEv → List (GoStr × GoStr × Option GoStr)
  | [] => []
  | CallEv.createFolder name pdir ret :: rest => (name, pdir, ret) :: creationsOf rest
  | _ :: rest => creationsOf rest

/-- The spec's chaining sentence, stated over the observed creation calls:
every creation after the first passes as its parent the identifier RETURNED
by the previous creation.  (Spec-comparison definition: this follows the
spec's words, to be tested against the trace the embedded code produces.) -/
def specChainedCreationsB : List (GoStr × GoStr × Option GoStr) → Bool
  | [] => true
  | [_] => true
  | e1 :: e2 :: rest =>
    (match e1.2.2 with
     | some f => decide (e2.2.1 = f)
     | none => false) && specChainedCreationsB (e2 :: rest)

def scenarioPre : PreUpload :=
  { code := 0, status := 200, taskID := gs "task", bucket := gs "b",
    objKey := gs "k", uploadID := gs "u", uploadURL := gs "url",
    authInfo := Jx.null, callback := Jx.null, partSize := 4194304 }

/-- Every path resolves to FILE_NOT_FOUND: none of the ancestors exist. -/
def scenarioGetInfo (_p : GoStr) : GoRet :=
  { resp := some (errResp (gs "FILE_NOT_FOUND") (gs "file not found")), err := none }

/-- A successful response carrying a fid in its Data. -/
def okFidResp (fid : GoStr) : StdResp :=
  { success := true, code := gs "OK", message := gs "ok", dataFid := some fid }

/-- Folder creation succeeds and returns the fresh fid "F" ++ name. -/
def scenarioCreate (name _pdir : GoStr) : GoRet :=
  { resp := some (okFidResp (gs "F" ++ name)), err := none }

def scenarioEnv : UploadEnv :=
  { openErr := none, statErr := none, fileSize := 1024, localName := gs "file.bin",
    getInfo := scenarioGetInfo, createFolder := scenarioCreate,
    upPre := fun _ _ _ _ => .ok scenarioPre,
    loadState := none, copyErr := none,
    upHash := fun _ => .ok true,
    upFinish := .ok { code := 0, status := 200, dataFid := none },
    upCommit := .ok (0, 200),
    readScript := [], upPart := fun _ => .error (gs "unused"),
    mimeTypeOf := fun _ => gs "application/octet-stream" }

/-- The calls the embedded UploadFile issues in the scenario. -/
def scenarioTrace : List CallEv :=
  match uploadFileGo scenarioEnv (gs "/local/file.bin") (gs "/new/deep/dir/file.bin") with
  | some r => r.2
  | none => []

/-! ## Definitions: the shape of every UploadFile outcome (C10) -/

/-- A response is well-coded when a failure carries a non-empty code and a
success carries "OK". -/
def goodCode (r : StdResp) : Prop :=
  (r.success = false → r.code ≠ gs "") ∧ (r.success = true → r.code = gs "OK")

/-- An UploadFile run that reaches a return statement (no panic), hands back
a nil Go error, and carries a well-coded response. -/
def GoodOut (o : Option ((StdResp × Option GoStr) × List CallEv)) : Prop :=
  ∃ out, o = some out ∧ out.1.2 = none ∧ goodCode out.1.1

def c10Pre : PreUpload :=
  { code := 0, status := 200, taskID := gs "t", bucket := gs "b",
    objKey := gs "k", uploadID := gs "u", uploadURL := gs "url",
    authInfo := Jx.null, callback := Jx.null, partSize := 4 }

/-- An environment where every remote call succeeds, for instantiating the
C10 statement. -/
def c10Env : UploadEnv :=
  { openErr := none, statErr := none, fileSize := 3, localName := gs "a.txt",
    getInfo := fun _ => { resp := some (okFidResp (gs "d1")), err := none },
    createFolder := fun _ _ => { resp := some (okFidResp (gs "f1")), err := none },
    upPre := fun _ _ _ _ => .ok c10Pre,
    loadState := none, copyErr := none,
    upHash := fun _ => .ok false,
    upFinish := .ok { code := 0, status := 200, dataFid := none },
    upCommit := .ok (0, 200),
    readScript := [ReadRes.bytes 3, ReadRes.eof],
    upPart := fun _ => .ok (gs "etag1"),
    mimeTypeOf := fun _ => [] }

/-- A pre-upload response whose part_size is negative: make([]byte,
partSize) at line 756 panics on it. -/
def crashPre : PreUpload :=
  { c10Pre with partSize := -1 }

/-- An otherwise-benign environment whose upPre hands back a negative
part_size. -/
def crashPartSizeEnv : UploadEnv :=
  { c10Env with upPre := fun _ _ _ _ => .ok crashPre }

/-- A stored session matching the attempt (path, destination and size) whose
uploaded_parts key was missing or null: it is trusted, but its UploadedParts
map is nil, and the first per-chunk state write (line 854) panics. -/
def crashState : UploadState :=
  { filePath := gs "/tmp/a.txt", destPath := gs "/dest/a.txt", fileSize := 3,
    uploadID := gs "u", taskID := gs "t", bucket := gs "b", objKey := gs "k",
    uploadURL := gs "url", partSize := 4, uploadedParts := none,
    mimeType := gs "application/octet-stream", authInfo := .null,
    callback := .null, hashCtx := none, createdAt := 0 }

/-- An otherwise-benign environment that loads the nil-map session. -/
def crashNilMapEnv : UploadEnv :=
  { c10Env with loadState := some crashState }

/-! ## Theorems: path normalisation -/

theorem replaceDoubleSlash_length_le (s : GoStr) :
    (replaceDoubleSlash s).length ≤ s.length := by
  induction s using replaceDoubleSlash.induct with
  | case1 => simp [replaceDoubleSlash]
  | case2 c => simp [replaceDoubleSlash]
  | case3 c1 c2 rest h ih =>
    simp only [replaceDoubleSlash, if_pos h, List.length_cons]
    omega
  | case4 c1 c2 rest h ih =>
    simp only [replaceDoubleSlash, if_neg h, List.length_cons]
    simp only [List.length_cons] at ih
    omega

theorem replaceDoubleSlash_length_lt (s : GoStr) (h : containsDoubleSlash s = true) :
    (replaceDoubleSlash s).length < s.length := by
  induction s using replaceDoubleSlash.induct with
  | case1 => simp [containsDoubleSlash] at h
  | case2 c => simp [containsDoubleSlash] at h
  | case3 c1 c2 rest hp ih =>
    have := replaceDoubleSlash_length_le rest
    simp only [replaceDoubleSlash, if_pos hp, List.length_cons]
    omega
  | case4 c1 c2 rest hp ih =>
    simp only [containsDoubleSlash, Bool.or_eq_true, decide_eq_true_eq] at h
    rcases h with h | h
    · exact absurd h hp
    · have := ih h
      simp only [replaceDoubleSlash, if_neg hp, List.length_cons]
      simp only [List.length_cons] at this ⊢
      omega

theorem collapseSlashesFuel_noDS (fuel : Nat) (s : GoStr) (hf : s.length ≤ fuel) :
    containsDoubleSlash (collapseSlashesFuel fuel s) = false := by
  induction fuel generalizing s with
  | zero =>
    have : s = [] := List.length_eq_zero.mp (Nat.le_zero.mp hf)
    subst this
    simp [collapseSlashesFuel, containsDoubleSlash]
  | succ fuel ih =>
    cases hc : containsDoubleSlash s with
    | true =>
      have hlt := replaceDoubleSlash_length_lt s hc
      simp only [collapseSlashesFuel, if_pos hc]
      exact ih _ (by omega)
    | false => simp [collapseSlashesFuel, hc]

/-- The collapse loop never leaves a double slash behind. -/
theorem collapseSlashes_noDS (s : GoStr) :
    containsDoubleSlash (collapseSlashes s) = false :=
  collapseSlashesFuel_noDS s.length s le_rfl

theorem collapseSlashesFuel_of_noDS (fuel : Nat) (s : GoStr)
    (h : containsDoubleSlash s = false) : collapseSlashesFuel fuel s = s := by
  cases fuel with
  | zero => rfl
  | succ fuel => simp [collapseSlashesFuel, h]

theorem mem_replaceDoubleSlash {c : Char} {s : GoStr}
    (h : c ∈ replaceDoubleSlash s) : c ∈ s := by
  induction s using replaceDoubleSlash.induct with
  | case1 => simp [replaceDoubleSlash] at h
  | case2 d => simpa [replaceDoubleSlash] using h
  | case3 c1 c2 rest hp ih =>
    simp only [replaceDoubleSlash, if_pos hp, List.mem_cons] at h
    rcases h with h | h
    · subst h; simp [hp.1]
    · simp [ih h]
  | case4 c1 c2 rest hp ih =>
    simp only [replaceDoubleSlash, if_neg hp, List.mem_cons] at h
    rcases h with h | h
    · simp [h]
    · have h2 := ih h
      simp only [List.mem_cons] at h2 ⊢
      tauto

theorem mem_collapseSlashesFuel {c : Char} (fuel : Nat) {s : GoStr}
    (h : c ∈ collapseSlashesFuel fuel s) : c ∈ s := by
  induction fuel generalizing s with
  | zero => simpa [collapseSlashesFuel] using h
  | succ fuel ih =>
    cases hc : containsDoubleSlash s with
    | true =>
      rw [collapseSlashesFuel, if_pos hc] at h
      exact mem_replaceDoubleSlash (ih h)
    | false => simpa [collapseSlashesFuel, hc] using h

theorem containsDoubleSlash_cons (c : Char) (m : GoStr)
    (h : containsDoubleSlash m = true) : containsDoubleSlash (c :: m) = true := by
  cases m with
  | nil => simp [containsDoubleSlash] at h
  | cons d t => simp [containsDoubleSlash, h]

theorem containsDoubleSlash_append_right (l r : GoStr)
    (h : containsDoubleSlash r = true) : containsDoubleSlash (l ++ r) = true := by
  induction l with
  | nil => simpa using h
  | cons a t ih => simpa using containsDoubleSlash_cons a (t ++ r) ih

theorem containsDoubleSlash_append_left (l r : GoStr)
    (h : containsDoubleSlash l = true) : containsDoubleSlash (l ++ r) = true := by
  induction l using containsDoubleSlash.induct with
  | case1 => simp [containsDoubleSlash] at h
  | case2 c => simp [containsDoubleSlash] at h
  | case3 c1 c2 rest ih =>
    simp only [containsDoubleSlash, Bool.or_eq_true, decide_eq_true_eq] at h
    rcases h with h | h
    · simp [List.cons_append, containsDoubleSlash, h]
    · exact containsDoubleSlash_cons c1 _ (by simpa using ih h)

theorem mem_dropLast {c : Char} {l : GoStr} (h : c ∈ l.dropLast) : c ∈ l := by
  induction l with
  | nil => simp at h
  | cons a t ih =>
    cases t with
    | nil => simp at h
    | cons b u =>
      rw [List.dropLast_cons₂] at h
      rcases List.mem_cons.mp h with h | h
      · simp [h]
      · exact List.mem_cons_of_mem a (ih h)

theorem containsDoubleSlash_dropLast (s : GoStr)
    (h : containsDoubleSlash s.dropLast = true) : containsDoubleSlash s = true := by
  rcases eq_or_ne s [] with hnil | hne
  · subst hnil; simp [containsDoubleSlash] at h
  · have h2 := containsDoubleSlash_append_left s.dropLast [s.getLast hne] h
    rwa [List.dropLast_append_getLast hne] at h2

theorem replaceBackslash_no_backslash (s : GoStr) : '\\' ∉ replaceBackslash s := by
  intro h
  simp only [replaceBackslash, List.mem_map] at h
  obtain ⟨a, _, ha⟩ := h
  by_cases hb : a = '\\' <;> simp [hb] at ha

theorem replaceBackslash_eq_self {s : GoStr} (h : '\\' ∉ s) : replaceBackslash s = s := by
  unfold replaceBackslash
  rw [show s.map (fun c => if c = '\\' then '/' else c) = s.map id from
    List.map_congr_left (fun a ha => by
      have : a ≠ '\\' := fun hc => h (hc ▸ ha)
      simp [this])]
  simp

theorem normalizePath_noDS (p : GoStr) :
    containsDoubleSlash (normalizePath p) = false := by
  have hds : containsDoubleSlash (collapseSlashes (replaceBackslash p)) = false :=
    collapseSlashes_noDS _
  simp only [normalizePath]
  split
  · cases hdl : containsDoubleSlash (collapseSlashes (replaceBackslash p)).dropLast with
    | false => rfl
    | true =>
      have h2 := containsDoubleSlash_dropLast _ hdl
      rw [hds] at h2
      exact Bool.noConfusion h2
  · exact hds

theorem normalizePath_no_backslash (p : GoStr) : '\\' ∉ normalizePath p := by
  intro h
  simp only [normalizePath] at h
  have hmem : '\\' ∈ collapseSlashes (replaceBackslash p) := by
    split at h
    · exact mem_dropLast h
    · exact h
  exact replaceBackslash_no_backslash p (mem_collapseSlashesFuel _ hmem)

theorem normalizePath_no_trailing (p : GoStr) :
    ¬(1 < (normalizePath p).length ∧ hasSuffixSlash (normalizePath p) = true) := by
  have hds : containsDoubleSlash (collapseSlashes (replaceBackslash p)) = false :=
    collapseSlashes_noDS _
  simp only [normalizePath]
  split
  case isTrue hcond =>
    rintro ⟨h1, h2⟩
    generalize hgen : collapseSlashes (replaceBackslash p) = s2 at hds hcond h1 h2
    have htne : s2.dropLast ≠ [] := by
      intro hnil
      rw [hnil] at h1
      simp at h1
    have hs2ne : s2 ≠ [] := List.ne_nil_of_length_pos (by have := hcond.1; omega)
    have hlast2 : s2.getLast hs2ne = '/' := by
      have h3 := hcond.2
      simp only [hasSuffixSlash, decide_eq_true_eq] at h3
      rw [List.getLast?_eq_getLast _ hs2ne] at h3
      exact Option.some_injective _ h3
    have hlastt : s2.dropLast.getLast htne = '/' := by
      simp only [hasSuffixSlash, decide_eq_true_eq] at h2
      rw [List.getLast?_eq_getLast _ htne] at h2
      exact Option.some_injective _ h2
    have hsplitt : s2.dropLast.dropLast ++ ['/'] = s2.dropLast := by
      rw [← hlastt]
      exact List.dropLast_append_getLast htne
    have hsplit2 : s2.dropLast ++ ['/'] = s2 := by
      rw [← hlast2]
      exact List.dropLast_append_getLast hs2ne
    have hcontains : containsDoubleSlash s2 = true := by
      rw [← hsplit2, ← hsplitt, List.append_assoc]
      exact containsDoubleSlash_append_right _ _ (by simp [containsDoubleSlash])
    rw [hcontains] at hds
    exact Bool.noConfusion hds
  case isFalse hcond => exact hcond

theorem normalizePath_eq_self {r : GoStr} (hbs : '\\' ∉ r)
    (hds : containsDoubleSlash r = false)
    (htr : ¬(1 < r.length ∧ hasSuffixSlash r = true)) : normalizePath r = r := by
  simp only [normalizePath]
  rw [replaceBackslash_eq_self hbs, collapseSlashes, collapseSlashesFuel_of_noDS _ _ hds,
    if_neg htr]

theorem normalizePath_idem (p : GoStr) :
    normalizePath (normalizePath p) = normalizePath p :=
  normalizePath_eq_self (normalizePath_no_backslash p) (normalizePath_noDS p)
    (normalizePath_no_trailing p)

/-- C6: normalizePath is idempotent; the root path normalizes to itself; and
the root spellings "" and "." map to the reserved root identifier "0". -/
theorem claim_C6_normalize_properties :
    (∀ p : GoStr, normalizePath (normalizePath p) = normalizePath p)
    ∧ normalizePath (gs "/") = gs "/"
    ∧ normalizeRootDir (gs "") = gs "0"
    ∧ normalizeRootDir (gs ".") = gs "0" :=
  ⟨normalizePath_idem, by decide, by decide, by decide⟩

/-! ## Theorems: hash resume correctness -/

theorem sha1Step_len (acc : Sha1Acc) (b : GoByte) :
    (sha1Step acc b).len = acc.len + 1 := by
  simp only [sha1Step]
  split <;> rfl

theorem sha1Update_len (data : List GoByte) (acc : Sha1Acc) :
    (sha1Update acc data).len = acc.len + data.length := by
  induction data generalizing acc with
  | nil => simp [sha1Update]
  | cons b t ih =>
    show (sha1Update (sha1Step acc b) t).len = _
    rw [ih, sha1Step_len]
    simp
    omega

theorem sha1Update_append (acc : Sha1Acc) (P Q : List GoByte) :
    sha1Update acc (P ++ Q) = sha1Update (sha1Update acc P) Q :=
  List.foldl_append _ _ _ _

/-- Restoring a captured accumulator is the identity while the byte counter
fits the 64-bit counter of the HashState. -/
theorem restore_capture (acc : Sha1Acc) (h : acc.len < 2 ^ 64) :
    restoreHashState (captureHashState acc) = acc := by
  cases acc with
  | mk h0 h1 h2 h3 h4 len buf =>
    simp only [captureHashState, restoreHashState, Sha1Acc.mk.injEq, and_true, true_and]
    simp only [show (2 : Nat) ^ 32 = 4294967296 from rfl] at *
    simp only [show (2 : Nat) ^ 64 = 18446744073709551616 from rfl] at h
    omega

/-- C1: for any byte string split S = P followed by Q, an accumulator restored
from the HashState captured after hashing P, when fed Q, yields the same
SHA-1 digest as hashing all of S in one pass (formalised for every P whose
length fits the 64-bit counter, which covers the listed prefix sizes 0, 1,
one 64-byte block, and several blocks plus a partial block). -/
theorem claim_C1_hash_resume (P Q : List GoByte) (hP : P.length < 2 ^ 64) :
    sha1Digest (sha1Update (restoreHashState (captureHashState
        (sha1Update sha1Init P))) Q)
      = sha1Digest (sha1Update sha1Init (P ++ Q)) := by
  have hlen : (sha1Update sha1Init P).len < 2 ^ 64 := by
    rw [sha1Update_len]
    simpa [sha1Init] using hP
  rw [restore_capture _ hlen, sha1Update_append]

/-- Witness for C1 at a one-full-block prefix of 64 bytes. -/
theorem claim_C1_hash_resume_witness :
    (List.replicate 64 (7 : GoByte)).length < 2 ^ 64 ∧
      sha1Digest (sha1Update (restoreHashState (captureHashState
          (sha1Update sha1Init (List.replicate 64 (7 : GoByte))))) [1, 2, 3])
        = sha1Digest (sha1Update sha1Init (List.replicate 64 (7 : GoByte) ++ [1, 2, 3])) :=
  ⟨by decide, claim_C1_hash_resume _ _ (by decide)⟩

/-! ## Theorems: part-upload headers -/

/-- C2 (evidence of the code bug): for every part number — in particular every
chunk after the first — the headers upPart places on the PUT are exactly
Authorization, Content-Type, x-oss-date and x-oss-user-agent; no hash-context
header exists, and upPart always leaves the builder's HashCtx field nil,
contradicting the claim (and the repository's TEST_README.md) that every
chunk but the first carries the serialized hash state. -/
theorem claim_C2_no_hash_ctx_header (authKey mimeType now : GoStr) (partNumber : Nat) :
    ((buildPartUploadHeaders (upPartBuilder authKey mimeType now partNumber)).map
        Prod.fst
      = [gs "Authorization", gs "Content-Type", gs "x-oss-date", gs "x-oss-user-agent"])
    ∧ (upPartBuilder authKey mimeType now partNumber).hashCtx = none :=
  ⟨rfl, rfl⟩

/-! ## Theorems: idempotent chunk retry (409 handling) -/

/-- C3: a 409 part-already-exists response whose body carries a non-empty
server-declared PartEtag is returned by upPart as a success with that
(quote-trimmed) ETag — the same result a fresh 200 carrying that ETag would
produce — and every other response with status at least 400 is an error. -/
theorem claim_C3_upPart_409 (r : PartPutResponse)
    (h409 : r.statusCode = 409) (hPAE : r.bodyHasPartAlreadyExist = true)
    (hXml : r.xmlOk = true) (hEtag : r.bodyPartEtag ≠ []) :
    upPartHandleResponse r = .ok (trimQuotes r.bodyPartEtag)
    ∧ (trimQuotes r.bodyPartEtag ≠ [] →
        upPartHandleResponse r = upPartHandleResponse
          { statusCode := 200, etagHeader := trimQuotes r.bodyPartEtag,
            bodyHasPartAlreadyExist := false, xmlOk := true, bodyPartEtag := [] })
    ∧ (∀ rr : PartPutResponse, 400 ≤ rr.statusCode →
        ¬(rr.statusCode = 409 ∧ rr.bodyHasPartAlreadyExist = true ∧ rr.xmlOk = true
            ∧ rr.bodyPartEtag ≠ []) →
        upPartHandleResponse rr = .err) := by
  refine ⟨?_, ?_, ?_⟩
  · simp [upPartHandleResponse, h409, hPAE, hXml, hEtag]
  · intro ht
    simp [upPartHandleResponse, h409, hPAE, hXml, hEtag, ht]
  · intro rr h400 hnot
    by_cases h9 : rr.statusCode = 409 ∧ rr.bodyHasPartAlreadyExist = true
    · by_cases hx : rr.xmlOk = true ∧ rr.bodyPartEtag ≠ []
      · exact absurd ⟨h9.1, h9.2, hx.1, hx.2⟩ hnot
      · simp [upPartHandleResponse, h400, h9, hx]
    · simp [upPartHandleResponse, h400, h9]

/-- Witness for C3: a concrete 409 PartAlreadyExist response with a quoted
server-declared ETag is accepted with the trimmed ETag. -/
theorem claim_C3_upPart_409_witness :
    upPartHandleResponse
        { statusCode := 409, etagHeader := [], bodyHasPartAlreadyExist := true,
          xmlOk := true, bodyPartEtag := gs "\"abc\"" }
      = .ok (trimQuotes (gs "\"abc\"")) :=
  (claim_C3_upPart_409 _ rfl rfl rfl (by decide)).1

/-! ## Theorems: credential failover -/

theorem findUnfailed_none_iff (failed : List Nat) (n cur : Nat) :
    ∀ remaining i, (findUnfailed failed n cur i remaining = none ↔
      ∀ k, i ≤ k → k < i + remaining → isFailed failed ((cur + 1 + k) % n) = true) := by
  intro remaining
  induction remaining with
  | zero =>
    intro i
    simp only [findUnfailed, true_iff]
    intro k h1 h2
    omega
  | succ rem ih =>
    intro i
    simp only [findUnfailed]
    by_cases hf : isFailed failed ((cur + 1 + i) % n) = true
    · rw [if_pos hf, ih (i + 1)]
      constructor
      · intro h k hk1 hk2
        rcases Nat.eq_or_lt_of_le hk1 with he | hl
        · rw [← he]; exact hf
        · exact h k hl (by omega)
      · intro h k hk1 hk2
        exact h k (by omega) (by omega)
    · rw [if_neg hf]
      constructor
      · intro h; exact absurd h (by simp)
      · intro h
        exact absurd (h i le_rfl (by omega)) hf

theorem findUnfailed_some_spec (failed : List Nat) (n cur : Nat) :
    ∀ remaining i idx, findUnfailed failed n cur i remaining = some idx →
      ∃ k, i ≤ k ∧ k < i + remaining ∧ idx = (cur + 1 + k) % n
        ∧ isFailed failed idx = false
        ∧ ∀ j, i ≤ j → j < k → isFailed failed ((cur + 1 + j) % n) = true := by
  intro remaining
  induction remaining with
  | zero => intro i idx h; simp [findUnfailed] at h
  | succ rem ih =>
    intro i idx h
    simp only [findUnfailed] at h
    by_cases hf : isFailed failed ((cur + 1 + i) % n) = true
    · rw [if_pos hf] at h
      obtain ⟨k, hk1, hk2, hk3, hk4, hk5⟩ := ih (i + 1) idx h
      refine ⟨k, by omega, by omega, hk3, hk4, fun j hj1 hj2 => ?_⟩
      rcases Nat.eq_or_lt_of_le hj1 with he | hl
      · rw [← he]; exact hf
      · exact hk5 j hl hj2
    · rw [if_neg hf] at h
      have hidx : idx = (cur + 1 + i) % n := (Option.some.injEq _ _).mp h.symm
      refine ⟨i, le_rfl, by omega, hidx, ?_, fun j hj1 hj2 => by omega⟩
      rw [hidx]
      simpa using hf

theorem ring_cover (n cur j : Nat) (hn : 0 < n) (hj : j < n) :
    ∃ i, i < n ∧ (cur + 1 + i) % n = j := by
  have hcn : (cur + 1) % n < n := Nat.mod_lt _ hn
  by_cases hge : (cur + 1) % n ≤ j
  · refine ⟨j - (cur + 1) % n, by omega, ?_⟩
    rw [Nat.add_mod (cur + 1) _ n,
      Nat.mod_eq_of_lt (show j - (cur + 1) % n < n by omega),
      Nat.mod_eq_of_lt (show (cur + 1) % n + (j - (cur + 1) % n) < n by omega)]
    omega
  · refine ⟨j + n - (cur + 1) % n, by omega, ?_⟩
    rw [Nat.add_mod (cur + 1) _ n,
      Nat.mod_eq_of_lt (show j + n - (cur + 1) % n < n by omega)]
    have h1 : (cur + 1) % n + (j + n - (cur + 1) % n) = j + n := by omega
    rw [h1, Nat.add_mod_right, Nat.mod_eq_of_lt hj]

/-- C9: switchToNextToken permanently marks the current index failed (keeping
all previous markings), errors exactly when every configured credential index
is marked failed, and on success advances to the first unfailed index in ring
order — never a failed one — updating the active token, its parsed cookie map
and resetting the cached auth check. -/
theorem claim_C9_failover (qc : TokenPool) :
    (isFailed (switchToNextToken qc).1.failedTokens qc.currentTokenIdx = true)
    ∧ (∀ i, isFailed qc.failedTokens i = true →
        isFailed (switchToNextToken qc).1.failedTokens i = true)
    ∧ ((switchToNextToken qc).2.isSome = true ↔
        ∀ j < qc.accessTokens.length,
          isFailed (qc.currentTokenIdx :: qc.failedTokens) j = true)
    ∧ (∀ st, switchToNextToken qc = (st, none) →
        ∃ k < qc.accessTokens.length,
          st.currentTokenIdx = (qc.currentTokenIdx + 1 + k) % qc.accessTokens.length
          ∧ isFailed (qc.currentTokenIdx :: qc.failedTokens) st.currentTokenIdx = false
          ∧ (∀ j < k, isFailed (qc.currentTokenIdx :: qc.failedTokens)
              ((qc.currentTokenIdx + 1 + j) % qc.accessTokens.length) = true)
          ∧ st.accessToken = qc.accessTokens.getD st.currentTokenIdx []
          ∧ st.cookies = parseCookie st.accessToken
          ∧ st.authCheckValid = false) := by
  have hmark : (switchToNextToken qc).1.failedTokens
      = qc.currentTokenIdx :: qc.failedTokens := by
    unfold switchToNextToken
    split <;> rfl
  refine ⟨?_, ?_, ?_, ?_⟩
  · rw [hmark]
    simp [isFailed]
  · intro i hi
    rw [hmark]
    simp only [isFailed] at hi ⊢
    simp only [List.contains_cons, hi, Bool.or_true]
  · unfold switchToNextToken
    split
    next idx hfind =>
      simp only [Option.isSome_none, Bool.false_eq_true, false_iff]
      intro hall
      obtain ⟨k, _, hk2, hk3, hk4, _⟩ :=
        findUnfailed_some_spec _ _ _ _ _ _ hfind
      have hn : 0 < qc.accessTokens.length := by omega
      have hidx : idx < qc.accessTokens.length := by
        rw [hk3]; exact Nat.mod_lt _ hn
      have hcontra := hall idx hidx
      rw [hcontra] at hk4
      exact Bool.noConfusion hk4
    next hfind =>
      simp only [Option.isSome_some, true_iff]
      intro j hj
      have hiff := (findUnfailed_none_iff (qc.currentTokenIdx :: qc.failedTokens)
        qc.accessTokens.length qc.currentTokenIdx qc.accessTokens.length 0).mp hfind
      obtain ⟨i, hi, hcov⟩ := ring_cover qc.accessTokens.length qc.currentTokenIdx j
        (by omega) hj
      have hres := hiff i (by omega) (by omega)
      rwa [hcov] at hres
  · intro st hst
    unfold switchToNextToken at hst
    split at hst
    next idx hfind =>
      obtain ⟨k, _, hk2, hk3, hk4, hk5⟩ :=
        findUnfailed_some_spec _ _ _ _ _ _ hfind
      have hstv : st = { qc with
          failedTokens := qc.currentTokenIdx :: qc.failedTokens,
          currentTokenIdx := idx,
          accessToken := qc.accessTokens.getD idx [],
          cookies := parseCookie (qc.accessTokens.getD idx []),
          authCheckValid := false } := ((Prod.mk.injEq _ _ _ _).mp hst).1.symm
      refine ⟨k, by omega, ?_, ?_, ?_, ?_, ?_, ?_⟩
      · rw [hstv]; exact hk3
      · rw [hstv]; exact hk4
      · intro j hj; exact hk5 j (by omega) hj
      · rw [hstv]
      · rw [hstv]
      · rw [hstv]
    next hfind =>
      exact absurd ((Prod.mk.injEq _ _ _ _).mp hst).2 (by simp)

/-! ## Theorems: session validation -/

/-- C4: a loaded session is trusted exactly when its recorded local path,
destination path and file size all equal the current attempt's; any mismatch
deletes the record and leaves no usable session; a failed load neither
deletes nor blocks; the block is a total function and surfaces no error. -/
theorem claim_C4_session_validation (st : UploadState) (fp dp : GoStr) (sz : Int) :
    ((checkSavedSession (.loaded st) fp dp sz).useSavedState = true ↔
      (st.filePath = fp ∧ st.destPath = dp ∧ st.fileSize = sz))
    ∧ ((checkSavedSession (.loaded st) fp dp sz).stateDeleted = true ↔
      ¬(st.filePath = fp ∧ st.destPath = dp ∧ st.fileSize = sz))
    ∧ ((checkSavedSession (.loaded st) fp dp sz).useSavedState = true →
        (checkSavedSession (.loaded st) fp dp sz).pre = some (preFromState st))
    ∧ ((checkSavedSession (.loaded st) fp dp sz).useSavedState = false →
        (checkSavedSession (.loaded st) fp dp sz).pre = none)
    ∧ (checkSavedSession .failed fp dp sz).useSavedState = false
    ∧ (checkSavedSession .failed fp dp sz).stateDeleted = false := by
  by_cases h : st.filePath = fp ∧ st.destPath = dp ∧ st.fileSize = sz
  · simp [checkSavedSession, h]
  · simp [checkSavedSession, h]

/-! ## Theorems: session record round trip -/

theorem digitVal_digitChar (d : Nat) (h : d < 10) : digitVal (digitChar d) = some d := by
  interval_cases d <;> decide

theorem mapM_digitVal_map (l : List Nat) (h : ∀ d ∈ l, d < 10) :
    (l.map digitChar).mapM digitVal = some l := by
  induction l with
  | nil => rfl
  | cons d t ih =>
    simp only [List.map_cons, List.mapM_cons]
    rw [digitVal_digitChar d (h d (by simp)), ih (fun x hx => h x (by simp [hx]))]
    rfl

theorem natToStr_ne_nil (n : Nat) : natToStr n ≠ [] := by
  unfold natToStr
  split
  · simp
  · next h0 =>
    intro hnil
    have hd : (Nat.digits 10 n).reverse = [] := by
      cases hrev : (Nat.digits 10 n).reverse with
      | nil => rfl
      | cons a t => rw [hrev] at hnil; simp at hnil
    have : Nat.digits 10 n = [] := by
      have := congrArg List.reverse hd
      simpa using this
    exact h0 (Nat.digits_eq_nil_iff_eq_zero.mp this)

theorem strToNat_natToStr (n : Nat) : strToNat (natToStr n) = some n := by
  by_cases h0 : n = 0
  · subst h0; decide
  · have hne : natToStr n ≠ [] := natToStr_ne_nil n
    rw [natToStr, if_neg h0] at hne ⊢
    rw [strToNat, if_neg hne]
    have hdig : ∀ d ∈ (Nat.digits 10 n).reverse, d < 10 := fun d hd =>
      Nat.digits_lt_base (by norm_num) (List.mem_reverse.mp hd)
    rw [mapM_digitVal_map _ hdig]
    simp [Nat.ofDigits_digits]

theorem mem_natToStr_isDigit {c : Char} {n : Nat} (h : c ∈ natToStr n) :
    (digitVal c).isSome = true := by
  unfold natToStr at h
  split at h
  · simp at h; subst h; decide
  · simp only [List.mem_map] at h
    obtain ⟨d, hd, hdc⟩ := h
    have hlt : d < 10 := Nat.digits_lt_base (by norm_num) (List.mem_reverse.mp hd)
    rw [← hdc, digitVal_digitChar d hlt]
    rfl

theorem strToInt_intToStr (i : Int) : strToInt (intToStr i) = some i := by
  unfold intToStr
  split
  · next hneg =>
    cases hs : natToStr (-i).toNat with
    | nil => exact absurd hs (natToStr_ne_nil _)
    | cons c rest =>
      rw [strToInt, if_pos rfl, ← hs, strToNat_natToStr]
      simp
      omega
  · next hpos =>
    cases hs : natToStr i.toNat with
    | nil => exact absurd hs (natToStr_ne_nil _)
    | cons c rest =>
      have hc : (digitVal c).isSome = true := mem_natToStr_isDigit (by rw [hs]; simp)
      have hcne : c ≠ '-' := by
        intro he; rw [he] at hc; simp [digitVal] at hc
      rw [strToInt, if_neg hcne, ← hs, strToNat_natToStr]
      simp
      omega

theorem decodePartEntry_encode (k : Int) (v : GoStr) :
    decodePartEntry (intToString k, Jx.str v) = some (k, v) := by
  unfold decodePartEntry stringToInt intToString
  have : strToInt (String.mk (intToStr k)).data = some k := by
    show strToInt (intToStr k) = some k
    exact strToInt_intToStr k
  rw [this]

theorem mapM_decodePartEntry (l : List (Int × GoStr)) :
    (l.map (fun kv => (intToString kv.1, Jx.str kv.2))).mapM decodePartEntry
      = some l := by
  induction l with
  | nil => rfl
  | cons kv t ih =>
    simp only [List.map_cons, List.mapM_cons, decodePartEntry_encode, ih]
    rfl

theorem mapMloop_decodePartEntry (l : List (Int × GoStr)) (acc : List (Int × GoStr)) :
    List.mapM.loop decodePartEntry (l.map (fun kv => (intToString kv.1, Jx.str kv.2))) acc
      = some (acc.reverse ++ l) := by
  induction l generalizing acc with
  | nil => simp [List.mapM.loop]
  | cons kv t ih => simp [List.mapM.loop, decodePartEntry_encode, ih]

/-- The session record round trip: loading what save wrote returns the
session with CreatedAt replaced by the save time (save stamps it). -/
theorem load_save_state (now : Int) (s : UploadState) :
    loadUploadState (saveUploadState now s) = some { s with createdAt := now } := by
  cases hc : s.hashCtx <;> cases hp : s.uploadedParts <;>
    simp [saveUploadState, loadUploadState, hc, hp, jGetStr, jGetInt, jGetParts,
      jGetRaw, jGetHashCtx, jLookup, mapMloop_decodePartEntry, encodeHashCtxJ,
      List.find?, List.mapM]

/-- C5 counterexample: saving stamps CreatedAt with the save time, so loading
the record written by save(s) does not return s when the save time differs
from s.CreatedAt. -/
theorem claim_C5_round_trip_counterexample :
    loadUploadState (saveUploadState 1 exampleState) ≠ some exampleState := by
  intro h
  rw [load_save_state] at h
  have h2 := congrArg (fun o => Option.map UploadState.createdAt o) h
  simp [exampleState] at h2

/-- C5 (amended): loading the record written by save(s) returns a session
equal to s in every field except CreatedAt, which save overwrites with the
save time — equivalently, equal in all fields to the post-save value of s.
This holds for every session, including an all-zero or non-zero HashState
and an empty uploaded-chunks map. -/
theorem claim_C5_round_trip_amended (now : Int) (s : UploadState) :
    loadUploadState (saveUploadState now s) = some { s with createdAt := now } :=
  load_save_state now s

/-! ## Theorems: paginated listing and name resolution -/

theorem listByFidLoop_collects (all : List QFileInfo) (sz : Nat) (hsz : 0 < sz) :
    ∀ fuel page, 1 ≤ page → all.length ≤ (page - 1) * sz + fuel * sz →
      listByFidLoop all sz (some all.length) fuel page (all.take ((page - 1) * sz))
        = all := by
  intro fuel
  induction fuel with
  | zero =>
    intro page hp hlen
    simp only [listByFidLoop]
    exact List.take_of_length_le (by simpa using hlen)
  | succ fuel ih =>
    intro page hp hlen
    have hsucc : (fuel + 1) * sz = fuel * sz + sz := Nat.succ_mul _ _
    simp only [listByFidLoop]
    by_cases hempty : servePage all sz page = []
    · rw [if_pos hempty]
      have hdrop : all.length ≤ (page - 1) * sz := by
        unfold servePage at hempty
        rcases List.take_eq_nil_iff.mp hempty with h | h
        · exact absurd h (by omega)
        · have hlen2 := List.drop_eq_nil_iff.mp h
          omega
      exact List.take_of_length_le hdrop
    · rw [if_neg hempty]
      have hacc2 : all.take ((page - 1) * sz) ++ servePage all sz page
          = all.take ((page - 1) * sz + sz) := by
        unfold servePage
        exact (List.take_add all _ _).symm
      rw [hacc2]
      by_cases hshort : (servePage all sz page).length < sz
      · rw [if_pos hshort]
        refine List.take_of_length_le ?_
        unfold servePage at hshort
        rw [List.length_take, List.length_drop] at hshort
        omega
      · rw [if_neg hshort]
        have hbound : (page - 1) * sz + sz ≤ all.length := by
          unfold servePage at hshort
          rw [List.length_take, List.length_drop] at hshort
          omega
        have hps : (page - 1) * sz + sz = page * sz := by
          have h1 : page - 1 + 1 = page := by omega
          calc (page - 1) * sz + sz = ((page - 1) + 1) * sz := (Nat.succ_mul _ _).symm
            _ = page * sz := by rw [h1]
        by_cases hmore : (page - 1) * sz + sz < all.length
        · have hcond : (decide ((all.take ((page - 1) * sz + sz)).length < all.length))
              = true := by
            rw [List.length_take]
            simp only [decide_eq_true_eq]
            omega
          rw [if_pos hcond]
          have harg : (page + 1 - 1) * sz = (page - 1) * sz + sz := by
            have h2 : page + 1 - 1 = page := by omega
            rw [h2]
            exact hps.symm
          have hlen3 : all.length ≤ (page + 1 - 1) * sz + fuel * sz := by
            rw [harg]
            rw [hsucc] at hlen
            omega
          have hres := ih (page + 1) (by omega) hlen3
          rw [harg] at hres
          exact hres
        · have hcond : ¬ ((decide ((all.take ((page - 1) * sz + sz)).length
              < all.length)) = true) := by
            rw [List.length_take]
            simp only [decide_eq_true_eq]
            omega
          rw [if_neg hcond]
          exact List.take_of_length_le (Nat.le_of_not_lt hmore)

theorem listByFid_eq (all : List QFileInfo) : listByFid all = all := by
  have h := listByFidLoop_collects all 50 (by norm_num) (all.length + 1) 1 le_rfl
    (by omega)
  simpa [listByFid] using h

/-- C7: against a truthful paginated server, the resolver's listing
concatenates all pages back into exactly the directory contents — stopping
on a short or empty page or when the accumulated count reaches the declared
total — and the subsequent linear scan either finds an entry carrying the
leaf name or returns FILE_NOT_FOUND exactly when no entry carries it. -/
theorem claim_C7_paginated_resolution (all : List QFileInfo) (fileName : GoStr) :
    listByFid all = all
    ∧ (getFileInfoScan fileName all = .error (gs "FILE_NOT_FOUND") ↔
        ∀ f ∈ all, f.name ≠ fileName)
    ∧ (∀ f, getFileInfoScan fileName all = .ok f → f ∈ all ∧ f.name = fileName) := by
  refine ⟨listByFid_eq all, ?_, ?_⟩
  · unfold getFileInfoScan
    rw [listByFid_eq]
    constructor
    · intro h f hf hname
      cases hfind : all.find? (fun f => decide (f.name = fileName)) with
      | some g =>
        rw [hfind] at h
        simp at h
      | none =>
        have h2 := List.find?_eq_none.mp hfind f hf
        simp [hname] at h2
    · intro h
      cases hfind : all.find? (fun f => decide (f.name = fileName)) with
      | some g =>
        have hg := List.find?_some hfind
        have hgmem := List.mem_of_find?_eq_some hfind
        simp only [decide_eq_true_eq] at hg
        exact absurd hg (h g hgmem)
      | none => rfl
  · intro f h
    unfold getFileInfoScan at h
    rw [listByFid_eq] at h
    cases hfind : all.find? (fun f => decide (f.name = fileName)) with
    | some g =>
      rw [hfind] at h
      simp only [Except.ok.injEq] at h
      subst h
      have hg := List.find?_some hfind
      have hgmem := List.mem_of_find?_eq_some hfind
      simp only [decide_eq_true_eq] at hg
      exact ⟨hgmem, hg⟩
    | none =>
      rw [hfind] at h
      simp at h

/-! ## Theorems: the folder-creation chain (C8) -/

/-- C8 (counterexample): in the scenario of the claim — destination
"/new/deep/dir/file.bin" with none of the three ancestors existing — the
upload does issue exactly three folder-creation calls, but the claim's
chaining sentence fails: the second and third creations do not pass the
identifier returned by the previous creation (they pass the parent directory
path instead). -/
theorem claim_C8_three_creations_counterexample :
    (creationsOf scenarioTrace).length = 3 ∧
    specChainedCreationsB (creationsOf scenarioTrace) = false := by
  decide

/-- C8 (amended): in the scenario, UploadFile issues exactly three
folder-creation calls before the single pre-upload negotiation, the first
with the root "/" as parent (normalised to "0" inside CreateFolder), each
subsequent one with the PATH of the directory created by the previous call
("/new", then "/new/deep") rather than its returned fid; only the fid
returned by the LAST creation ("Fdir") feeds the negotiation as the upload's
parent, and the run succeeds with code OK and a nil error. -/
theorem claim_C8_three_creations_amended :
    uploadFileGo scenarioEnv (gs "/local/file.bin") (gs "/new/deep/dir/file.bin") =
      some ((okFinishResp none, none),
        [CallEv.getInfo (gs "/new/deep/dir"),
         CallEv.getInfo (gs "/new"),
         CallEv.createFolder (gs "new") (gs "/") (some (gs "Fnew")),
         CallEv.getInfo (gs "/new/deep"),
         CallEv.createFolder (gs "deep") (gs "/new") (some (gs "Fdeep")),
         CallEv.getInfo (gs "/new/deep/dir"),
         CallEv.createFolder (gs "dir") (gs "/new/deep") (some (gs "Fdir")),
         CallEv.preUpload (gs "Fdir")]) ∧
    creationsOf scenarioTrace =
      [(gs "new", gs "/", some (gs "Fnew")),
       (gs "deep", gs "/new", some (gs "Fdeep")),
       (gs "dir", gs "/new/deep", some (gs "Fdir"))] := by
  refine ⟨?_, ?_⟩ <;> decide

/-! ## Theorems: the shape of every UploadFile outcome (C10) -/

theorem errResp_goodCode {c : GoStr} (m : GoStr) (h : c ≠ gs "") :
    goodCode (errResp c m) :=
  ⟨fun _ => h, fun ht => Bool.noConfusion ht⟩

theorem okFinishResp_goodCode (d : Option GoStr) : goodCode (okFinishResp d) :=
  ⟨fun hf => Bool.noConfusion hf, fun _ => rfl⟩

theorem upFinishStage_good (env : UploadEnv) (tr : List CallEv) :
    (upFinishStage env tr).1.2 = none ∧ goodCode (upFinishStage env tr).1.1 := by
  unfold upFinishStage
  cases env.upFinish with
  | error e => exact ⟨rfl, errResp_goodCode _ (by decide)⟩
  | ok f =>
    dsimp only
    by_cases h : f.code ≠ 0 ∨ f.status ≠ 200
    · rw [if_pos h]
      exact ⟨rfl, errResp_goodCode _ (by decide)⟩
    · rw [if_neg h]
      exact ⟨rfl, okFinishResp_goodCode _⟩

theorem chunkLoop_good (env : UploadEnv) :
    ∀ script pn etags, ∃ res, chunkLoop env false script pn etags = some res ∧
      ∀ r, res = .error r → goodCode r := by
  intro script
  induction script with
  | nil =>
    intro pn etags
    exact ⟨.ok etags, rfl, fun r h => Except.noConfusion h⟩
  | cons x rest ih =>
    intro pn etags
    cases x with
    | eof => exact ⟨.ok etags, rfl, fun r h => Except.noConfusion h⟩
    | err e =>
      refine ⟨.error (errResp (gs "READ_FILE_ERROR") (gs "failed to read file chunk")),
        ?_, ?_⟩
      · simp [chunkLoop]
      · intro r h
        injection h with h3
        subst h3
        exact errResp_goodCode _ (by decide)
    | bytes n =>
      by_cases hn : n = 0
      · refine ⟨.ok etags, ?_, fun r h => Except.noConfusion h⟩
        simp [chunkLoop, hn]
      · cases hp : env.upPart pn with
        | error e2 =>
          refine ⟨.error (errResp (gs "UPLOAD_PART_ERROR") (gs "failed to upload part")),
            ?_, ?_⟩
          · simp [chunkLoop, hn, hp]
          · intro r h
            injection h with h3
            subst h3
            exact errResp_goodCode _ (by decide)
        | ok etag =>
          obtain ⟨res, hres, hgood⟩ := ih (pn + 1) (etags ++ [etag])
          refine ⟨res, ?_, hgood⟩
          simp [chunkLoop, hn, hp, hres]

theorem uploadCommitTail_good (env : UploadEnv) (res : Except StdResp (List GoStr))
    (tr : List CallEv) (hres : ∀ r, res = .error r → goodCode r) :
    (uploadCommitTail env res tr).1.2 = none ∧
      goodCode (uploadCommitTail env res tr).1.1 := by
  unfold uploadCommitTail
  cases res with
  | error r => exact ⟨rfl, hres r rfl⟩
  | ok etags =>
    cases env.upCommit with
    | error e => exact ⟨rfl, errResp_goodCode _ (by decide)⟩
    | ok cs =>
      dsimp only
      by_cases h : cs.1 = 0 ∧ cs.2 = 200
      · rw [if_pos h]
        exact upFinishStage_good env tr
      · rw [if_neg h]
        exact ⟨rfl, errResp_goodCode _ (by decide)⟩

theorem uploadChunksCommit_good (env : UploadEnv) (useSaved : Bool)
    (saved : Option UploadState) (partSize : Int) (tr : List CallEv)
    (hps : 0 ≤ partSize) (hnm : nilPartsOf useSaved saved = false) :
    GoodOut (uploadChunksCommit env useSaved saved partSize tr) := by
  unfold uploadChunksCommit
  rw [if_neg (by omega : ¬ partSize < 0), hnm]
  obtain ⟨res, hres, hgood⟩ := chunkLoop_good env env.readScript
    (resumeOf useSaved saved).2 (resumeOf useSaved saved).1
  rw [hres]
  exact ⟨uploadCommitTail env res tr, rfl,
    (uploadCommitTail_good env res tr hgood).1,
    (uploadCommitTail_good env res tr hgood).2⟩

theorem uploadAfterHash_good (env : UploadEnv) (finish useSaved : Bool)
    (saved : Option UploadState) (partSize : Int) (tr : List CallEv)
    (hps : 0 ≤ partSize) (hnm : nilPartsOf useSaved saved = false) :
    GoodOut (uploadAfterHash env finish useSaved saved partSize tr) := by
  unfold uploadAfterHash
  by_cases h : finish = true
  · rw [if_pos h]
    exact ⟨upFinishStage env tr, rfl, (upFinishStage_good env tr).1,
      (upFinishStage_good env tr).2⟩
  · rw [if_neg h]
    exact uploadChunksCommit_good env useSaved saved partSize tr hps hnm

theorem uploadHashStage_good (env : UploadEnv) (pre : PreUpload) (useSaved : Bool)
    (saved : Option UploadState) (destFileName mimeType dirFid : GoStr)
    (fileSize : Int) (tr : List CallEv)
    (hpre : 0 ≤ pre.partSize)
    (hnm : nilPartsOf useSaved saved = false)
    (hup : ∀ p2, env.upPre destFileName mimeType fileSize dirFid = .ok p2 →
      0 ≤ p2.partSize) :
    GoodOut (uploadHashStage env pre useSaved saved destFileName mimeType dirFid
      fileSize tr) := by
  unfold uploadHashStage
  cases env.upHash pre.taskID with
  | ok finish =>
    exact uploadAfterHash_good env finish useSaved saved pre.partSize tr hpre hnm
  | error e =>
    dsimp only
    by_cases h : useSaved = true
    · rw [if_pos h]
      cases hpre2 : env.upPre destFileName mimeType fileSize dirFid with
      | error e2 => exact ⟨_, rfl, rfl, errResp_goodCode _ (by decide)⟩
      | ok pre2 =>
        dsimp only
        cases env.upHash pre2.taskID with
        | error e3 => exact ⟨_, rfl, rfl, errResp_goodCode _ (by decide)⟩
        | ok finish =>
          exact uploadAfterHash_good env finish false saved pre2.partSize
            (tr ++ [CallEv.preUpload dirFid]) (hup pre2 hpre2) rfl
    · rw [if_neg h]
      exact ⟨_, rfl, rfl, errResp_goodCode _ (by decide)⟩

theorem uploadCopyHash_good (env : UploadEnv) (pre : PreUpload) (useSaved : Bool)
    (saved : Option UploadState) (destFileName mimeType dirFid : GoStr)
    (fileSize : Int) (tr : List CallEv)
    (hpre : 0 ≤ pre.partSize)
    (hnm : nilPartsOf useSaved saved = false)
    (hup : ∀ p2, env.upPre destFileName mimeType fileSize dirFid = .ok p2 →
      0 ≤ p2.partSize) :
    GoodOut (uploadCopyHash env pre useSaved saved destFileName mimeType dirFid
      fileSize tr) := by
  unfold uploadCopyHash
  cases env.copyErr with
  | some e => exact ⟨_, rfl, rfl, errResp_goodCode _ (by decide)⟩
  | none =>
    exact uploadHashStage_good env pre useSaved saved destFileName mimeType dirFid
      fileSize tr hpre hnm hup

theorem uploadNegotiate_good (env : UploadEnv) (decPre : Option PreUpload)
    (useSaved : Bool) (saved : Option UploadState)
    (destFileName mimeType dirFid : GoStr) (fileSize : Int) (tr : List CallEv)
    (hpre : ∀ pre, decPre = some pre → 0 ≤ pre.partSize)
    (hnm : nilPartsOf useSaved saved = false)
    (hup : ∀ p2, env.upPre destFileName mimeType fileSize dirFid = .ok p2 →
      0 ≤ p2.partSize) :
    GoodOut (uploadNegotiate env decPre useSaved saved destFileName mimeType dirFid
      fileSize tr) := by
  unfold uploadNegotiate
  cases decPre with
  | some pre =>
    exact uploadCopyHash_good env pre useSaved saved destFileName mimeType dirFid
      fileSize tr (hpre pre rfl) hnm hup
  | none =>
    cases hpre2 : env.upPre destFileName mimeType fileSize dirFid with
    | error e => exact ⟨_, rfl, rfl, errResp_goodCode _ (by decide)⟩
    | ok pre =>
      exact uploadCopyHash_good env pre useSaved saved destFileName mimeType dirFid
        fileSize (tr ++ [CallEv.preUpload dirFid]) (hup pre hpre2) hnm hup

theorem uploadAfterDir_good (env : UploadEnv)
    (filePath destPath destFileName dirFid : GoStr) (fileSize : Int)
    (tr : List CallEv)
    (h3 : ∀ fn mt fs d p2, env.upPre fn mt fs d = .ok p2 → 0 ≤ p2.partSize)
    (h4 : ∀ st, env.loadState = some st →
      0 ≤ st.partSize ∧ st.uploadedParts ≠ none) :
    GoodOut (uploadAfterDir env filePath destPath destFileName dirFid fileSize tr) := by
  unfold uploadAfterDir
  cases hload : env.loadState with
  | none =>
    exact uploadNegotiate_good env _ _ _ destFileName _ dirFid fileSize tr
      (fun pre hp => by simp [checkSavedSession] at hp)
      (by simp [checkSavedSession, nilPartsOf])
      (fun p2 hp2 => h3 _ _ _ _ p2 hp2)
  | some st =>
    by_cases hc : st.filePath = filePath ∧ st.destPath = destPath ∧
        st.fileSize = fileSize
    · refine uploadNegotiate_good env _ _ _ destFileName _ dirFid fileSize tr
        ?_ ?_ (fun p2 hp2 => h3 _ _ _ _ p2 hp2)
      · intro pre hp
        simp [checkSavedSession, hc] at hp
        subst hp
        exact (h4 st hload).1
      · simp [checkSavedSession, hc, nilPartsOf, (h4 st hload).2]
    · exact uploadNegotiate_good env _ _ _ destFileName _ dirFid fileSize tr
        (fun pre hp => by simp [checkSavedSession, hc] at hp)
        (by simp [checkSavedSession, hc, nilPartsOf])
        (fun p2 hp2 => h3 _ _ _ _ p2 hp2)

theorem materializeStep_good (env : UploadEnv) (part cur lastFid : GoStr)
    {r : StdResp} {evs : List CallEv}
    (h : materializeStep env part cur lastFid = (.error r, evs)) : goodCode r := by
  simp only [materializeStep] at h
  repeat' split at h
  all_goals
    injection h with h1 h2
    first
      | exact Except.noConfusion h1
      | (injection h1 with h3
         subst h3
         exact errResp_goodCode _ (by decide))

theorem materializeLoop_good (env : UploadEnv) :
    ∀ parts cur lastFid tr r tr2,
      materializeLoop env parts cur lastFid tr = (.error r, tr2) → goodCode r := by
  intro parts
  induction parts with
  | nil =>
    intro cur lastFid tr r tr2 h
    simp [materializeLoop] at h
  | cons part rest ih =>
    intro cur lastFid tr r tr2 h
    simp only [materializeLoop] at h
    by_cases hp : part = []
    · rw [if_pos hp] at h
      exact ih _ _ _ _ _ h
    · rw [if_neg hp] at h
      cases hstep : materializeStep env part cur lastFid with
      | mk res evs =>
        rw [hstep] at h
        cases res with
        | error r0 =>
          injection h with h1 h2
          injection h1 with h3
          subst h3
          exact materializeStep_good env part cur lastFid hstep
        | ok cl =>
          exact ih _ _ _ _ _ h

theorem needCreateOf_err_none {gi : GoRet} (h : ¬ needCreateOf gi = true) :
    gi.err = none := by
  cases hgi : gi.err with
  | none => rfl
  | some e => exact absurd (by simp [needCreateOf, hgi]) h

theorem finishMaterialize_good (di : StdResp) (tr : List CallEv)
    (hdi : di.success = false → di.code ≠ gs "") :
    ∀ r, (finishMaterialize di tr).1 = .error r → goodCode r := by
  intro r hr
  unfold finishMaterialize at hr
  by_cases hs : di.success = false
  · rw [if_pos hs] at hr
    injection hr with h3
    subst h3
    exact ⟨fun _ => hdi hs, fun ht => Bool.noConfusion ht⟩
  · rw [if_neg hs] at hr
    cases hdf : di.dataFid with
    | some f =>
      rw [hdf] at hr
      dsimp only at hr
      by_cases hf : f = []
      · rw [if_pos hf] at hr
        injection hr with h3
        subst h3
        exact errResp_goodCode _ (by decide)
      · rw [if_neg hf] at hr
        exact Except.noConfusion hr
    | none =>
      rw [hdf] at hr
      dsimp only at hr
      injection hr with h3
      subst h3
      exact errResp_goodCode _ (by decide)

theorem materializeDest_spec (env : UploadEnv)
    (h1 : ∀ p, (env.getInfo p).resp = none → (env.getInfo p).err ≠ none)
    (h2 : ∀ p r, (env.getInfo p).resp = some r → r.success = false → r.code ≠ gs "")
    (d : GoStr) :
    ∃ v, materializeDest env d = some v ∧ ∀ r, v.1 = .error r → goodCode r := by
  unfold materializeDest
  by_cases hroot : d ≠ gs "/" ∧ d ≠ [] ∧ d ≠ gs "."
  · rw [if_pos hroot]
    by_cases hnc : needCreateOf (env.getInfo d) = true
    · rw [if_pos hnc]
      cases hm : materializeLoop env (splitSlash (trimSlashes d)) [] []
          [CallEv.getInfo d] with
      | mk res tr =>
        cases res with
        | error r0 =>
          refine ⟨(.error r0, tr), rfl, ?_⟩
          intro r hr
          injection hr with h3
          subst h3
          exact materializeLoop_good env _ _ _ _ _ _ hm
        | ok lastFid =>
          dsimp only
          by_cases hl : lastFid ≠ []
          · rw [if_pos hl]
            refine ⟨_, rfl, ?_⟩
            intro r hr
            refine finishMaterialize_good _ _ ?_ r hr
            intro hfalse
            exact Bool.noConfusion hfalse
          · rw [if_neg hl]
            cases he : (env.getInfo d).err with
            | some e =>
              refine ⟨_, rfl, ?_⟩
              intro r hr
              injection hr with h3
              subst h3
              exact errResp_goodCode _ (by decide)
            | none =>
              cases hresp : (env.getInfo d).resp with
              | none => exact absurd he (h1 d hresp)
              | some di2 =>
                exact ⟨_, rfl, fun r hr => finishMaterialize_good _ _ (h2 d di2 hresp) r hr⟩
    · rw [if_neg hnc]
      cases hresp : (env.getInfo d).resp with
      | none => exact absurd (needCreateOf_err_none hnc) (h1 d hresp)
      | some di =>
        exact ⟨_, rfl, fun r hr => finishMaterialize_good _ _ (h2 d di hresp) r hr⟩
  · rw [if_neg hroot]
    refine ⟨(.ok (gs "0"), []), rfl, ?_⟩
    intro r hr
    exact Except.noConfusion hr

theorem uploadDispatch_spec (env : UploadEnv)
    (h1 : ∀ p, (env.getInfo p).resp = none → (env.getInfo p).err ≠ none)
    (h2 : ∀ p r, (env.getInfo p).resp = some r → r.success = false → r.code ≠ gs "")
    (h3 : ∀ fn mt fs d p2, env.upPre fn mt fs d = .ok p2 → 0 ≤ p2.partSize)
    (h4 : ∀ st, env.loadState = some st →
      0 ≤ st.partSize ∧ st.uploadedParts ≠ none)
    (fp dp dfn : GoStr) (fs : Int) (d : GoStr) :
    GoodOut (uploadDispatch env fp dp dfn fs d) := by
  unfold uploadDispatch
  obtain ⟨v, hv, hg⟩ := materializeDest_spec env h1 h2 d
  rw [hv]
  obtain ⟨res, tr⟩ := v
  cases res with
  | error r => exact ⟨((r, none), tr), rfl, rfl, hg r rfl⟩
  | ok dirFid => exact uploadAfterDir_good env fp dp dfn dirFid fs tr h3 h4

/-- C10 (counterexample): UploadFile CAN crash, so the returned error is not
always nil.  Two concrete runs panic: one whose pre-upload response carries a
negative part_size, on which make([]byte, partSize) at line 756 panics at the
first loop iteration, and one that trusts a stored session whose
uploaded_parts key was missing or null, on which the first per-chunk state
write savedState.UploadedParts[partNumber] = etag at line 854 assigns into a
nil map and panics.  Both runs evaluate to `none` — no return statement is
reached. -/
theorem claim_C10_upload_crash_counterexample :
    uploadFileGo crashPartSizeEnv (gs "/tmp/a.txt") (gs "/dest/a.txt") = none ∧
    uploadFileGo crashNilMapEnv (gs "/tmp/a.txt") (gs "/dest/a.txt") = none := by
  refine ⟨?_, ?_⟩ <;> decide

/-- C10 (amended): for every environment whose GetFileInfo honours its own
contract (a non-nil response with a nil Go error, failure codes non-empty —
facts of its source), whose pre-upload responses carry a non-negative
part_size, and whose loadable session records carry a non-negative part_size
and a non-nil uploaded-parts map — excluding exactly the two panics of the
counterexample — and for any local and destination path, UploadFile reaches
a return statement, the returned Go error value is nil, and the returned
StandardResponse carries a non-empty symbolic code on failure and the code
OK on success. -/
theorem claim_C10_upload_nil_error_amended (env : UploadEnv)
    (filePath destPath : GoStr)
    (h1 : ∀ p, (env.getInfo p).resp = none → (env.getInfo p).err ≠ none)
    (h2 : ∀ p r, (env.getInfo p).resp = some r → r.success = false → r.code ≠ gs "")
    (h3 : ∀ fn mt fs d p2, env.upPre fn mt fs d = .ok p2 → 0 ≤ p2.partSize)
    (h4 : ∀ st, env.loadState = some st →
      0 ≤ st.partSize ∧ st.uploadedParts ≠ none) :
    GoodOut (uploadFileGo env filePath destPath) := by
  unfold uploadFileGo
  cases env.openErr with
  | some e => exact ⟨_, rfl, rfl, errResp_goodCode _ (by decide)⟩
  | none =>
    cases env.statErr with
    | some e => exact ⟨_, rfl, rfl, errResp_goodCode _ (by decide)⟩
    | none => exact uploadDispatch_spec env h1 h2 h3 h4 _ _ _ _ _

/-- C10 witness: the amended statement instantiated at a concrete all-success
environment and concrete paths, the four environment-contract hypotheses
discharged by evaluation. -/
theorem claim_C10_upload_nil_error_amended_witness :
    GoodOut (uploadFileGo c10Env (gs "/tmp/a.txt") (gs "/dest/a.txt")) :=
  claim_C10_upload_nil_error_amended c10Env (gs "/tmp/a.txt") (gs "/dest/a.txt")
    (fun p h => by simp [c10Env] at h)
    (fun p r hr hs => by
      simp [c10Env] at hr
      subst hr
      simp [okFidResp] at hs)
    (fun fn mt fs d p2 hp2 => by
      simp [c10Env] at hp2
      subst hp2
      decide)
    (fun st hst => by simp [c10Env] at hst)

end Kuake
